import Mathlib

/-!
Shallow embedding of the routing subsystem of CloudVPN (src/cloud/route.cpp)
together with the interfaces it uses from comm.h.  `std::map` is embedded as
an association list strictly sorted by key, `std::multimap` as an association
list sorted by key (equal keys kept in insertion order), `std::set<int>` as a
strictly sorted list of integers.  `rand()` is embedded as an explicit tape of
natural numbers consumed one value per call.  C++ undefined behaviour
(a `rand() % 0`, or the non-terminating scatter loop on a zero cost) is
represented by `Option.none` results.
-/

/-- Address of the mesh: `(instance, bytes)`, ordered lexicographically
(class `address`; its definition is outside route.cpp, the order is the one
the spec gives: totally ordered lexicographically on `(instance, bytes)`). -/
structure address where
  inst : Nat
  addr : List Nat
deriving DecidableEq, Repr

/-- Lexicographic key of an address. -/
def address.key (a : address) : Lex (Nat × List Nat) := toLex (a.inst, a.addr)

theorem address.key_injective : Function.Injective address.key := by
  intro a b h
  cases a; cases b
  simpa [address.key, toLex, Prod.ext_iff] using h

instance : LinearOrder address := LinearOrder.lift' address.key address.key_injective

/-- `route_info { ping, dist, id }` of route.h: `ping` in usec, `dist` in hops,
`id` the next hop (a connection id when nonnegative, gate `-(id+1)` when
negative). -/
structure route_info where
  ping : Nat
  dist : Nat
  id : Int
deriving DecidableEq, Repr

section Maps

variable {K V : Type} [LinearOrder K]

/-- `std::map::find` / `count` on the association-list embedding. -/
def mfind (m : List (K × V)) (k : K) : Option V :=
  (m.find? (fun e => decide (e.1 = k))).map (·.2)

/-- `std::map::operator[]=`: sorted insert replacing an equal key. -/
def minsert : List (K × V) → K → V → List (K × V)
  | [], k, v => [(k, v)]
  | (k', v') :: t, k, v =>
    if k < k' then (k, v) :: (k', v') :: t
    else if k = k' then (k, v) :: t
    else (k', v') :: minsert t k v

/-- `std::map::erase` by key. -/
def merase (m : List (K × V)) (k : K) : List (K × V) :=
  m.filter (fun e => decide (¬ e.1 = k))

/-- `std::multimap::insert`: insert at the upper bound of the equal range. -/
def mmInsert : List (K × V) → K → V → List (K × V)
  | [], k, v => [(k, v)]
  | (k', v') :: t, k, v =>
    if k < k' then (k, v) :: (k', v') :: t
    else (k', v') :: mmInsert t k v

/-- Strict sortedness of an association list by its keys (the `std::map`
representation invariant). -/
def SortedMap (m : List (K × V)) : Prop :=
  m.Pairwise (fun e f => e.1 < f.1)

end Maps

/-- `std::set<int>::insert` on the strictly sorted list embedding. -/
def insertSet : List Int → Int → List Int
  | [], x => [x]
  | y :: t, x =>
    if x < y then x :: y :: t
    else if x = y then y :: t
    else y :: insertSet t x

/-!  Configuration (conf.h interface): integer keys read through
`config_get_int` and boolean flags read through `config_is_true`, named after
the exact key strings the source passes. -/

/-- Integer configuration keys consumed by route.cpp. -/
inductive config_key where
  | packet_id_cache_size
  | multipath_ratio
  | report_ping_changes_above
  | route_max_dist
  | route_broadcast_ttl
  | route_hop_penalization
deriving DecidableEq, Repr

/-- Boolean configuration flags consumed by route.cpp. -/
inductive config_flag where
  | multipath
  | shared_uplink
deriving DecidableEq, Repr

/-- The static configuration the routing subsystem keeps after `route_init`:
`queue_max_size`, `do_multiroute`/`multi_ratio`, `route_report_ping_diff`,
`route_max_dist`, `hop_penalization`, `shared_uplink`. -/
structure Params where
  qmax : Nat
  do_multiroute : Bool
  multi_ratio : Nat
  ping_diff : Nat
  route_max_dist : Nat
  hop_penalization : Nat
  shared_uplink : Bool
deriving DecidableEq, Repr

/-- `route_init` (together with the `queue_init` and `route_init_multi` it
calls): reads the configuration in source order.  Note the source reads the
`route_max_dist` key into `route_max_dist`, then immediately overwrites
`route_max_dist` with the value of the `route_broadcast_ttl` key. -/
def route_init (cfgInt : config_key → Option Nat) (cfgFlag : config_flag → Bool) : Params :=
  let qmax := (cfgInt .packet_id_cache_size).getD 1024
  let do_multi := cfgFlag .multipath
  let ratio := if do_multi then max ((cfgInt .multipath_ratio).getD 2) 2 else 2
  let pdiff := (cfgInt .report_ping_changes_above).getD 5000
  let rmd := (cfgInt .route_max_dist).getD 64
  let rmd2 := (cfgInt .route_broadcast_ttl).getD 64
  let hp := (cfgInt .route_hop_penalization).getD 0
  let _ := rmd  -- the first value is dead: the next read clobbers it
  { qmax := qmax, do_multiroute := do_multi, multi_ratio := ratio,
    ping_diff := pdiff, route_max_dist := rmd2, hop_penalization := hp,
    shared_uplink := cfgFlag .shared_uplink }

/-!  Broadcast-ID cache (`queue_items` : `map<uint32,int>`,
`queue_age` : `queue<uint32>`, front of the queue = head of the list). -/

/-- `queue_already_sent`. -/
def queue_already_sent (items : List (Nat × Int)) (id : Nat) : Bool :=
  (mfind items id).isSome

/-- One eviction step: `--queue_items[front]; if zero, erase`.
`operator[]` creates a zero entry when the key is absent. -/
def queue_dec (items : List (Nat × Int)) (f : Nat) : List (Nat × Int) :=
  let c := (mfind items f).getD 0
  if c - 1 = 0 then merase items f else minsert items f (c - 1)

/-- The eviction loop of `queue_add_id`: pop while the age queue has at least
`qmax` elements.  (With `qmax = 0` and an empty queue the C++ would pop an
empty queue; the model stops instead.) -/
def queue_evict (qmax : Nat) : List Nat → List (Nat × Int) → List Nat × List (Nat × Int)
  | [], items => ([], items)
  | f :: rest, items =>
    if qmax ≤ rest.length + 1 then queue_evict qmax rest (queue_dec items f)
    else (f :: rest, items)

/-- `queue_add_id`. -/
def queue_add_id (qmax : Nat) (age : List Nat) (items : List (Nat × Int)) (id : Nat) :
    List Nat × List (Nat × Int) :=
  let ai := queue_evict qmax age items
  let items3 := match mfind ai.2 id with
    | some c => minsert ai.2 id (c + 1)
    | none => minsert ai.2 id 1
  (ai.1 ++ [id], items3)

/-!  The connection and gate interfaces (comm.h, gate.h) as route.cpp uses
them. -/

/-- `cs_active` of comm.h. -/
def cs_active : Nat := 6

/-- `connection::remote_route`. -/
structure remote_route where
  ping : Nat
  dist : Nat
deriving DecidableEq, Repr

/-- The part of `class connection` route.cpp reads: `state`, `ping`,
`remote_routes`. -/
structure connection where
  state : Nat
  ping : Nat
  remote_routes : List (address × remote_route)
deriving DecidableEq, Repr

/-- The part of `class gate` route.cpp reads: `fd`, `id`, `local` (the list of
local addresses; named `locals` here because `local` is reserved), and
`instances`. -/
structure gate where
  fd : Int
  id : Int
  locals : List address
  instances : List address
deriving DecidableEq, Repr

/-- The mutable state of the routing subsystem: the tables
`route`, `reported_route`, `promisc`, `multiroute`, the `route_dirty` flag and
the broadcast-ID cache. -/
structure RState where
  route : List (address × route_info)
  reported_route : List (address × route_info)
  promisc : List (address × route_info)
  multiroute : List (address × List (Nat × Int))
  route_dirty : Nat
  queue_items : List (Nat × Int)
  queue_age : List Nat
deriving DecidableEq, Repr

/-- `route_set_dirty`. -/
def route_set_dirty (st : RState) : RState :=
  { st with route_dirty := st.route_dirty + 1 }
/-!  Route table construction (`route_update` and helpers). -/

/-- One step of the connection loop of `route_update`: a single remote route
`(ar.1, ar.2)` reported by the Active connection `cid` (whose own ping is
`cping`) is considered against the accumulator `(route, promisc)`. -/
def route_step (P : Params) (cid : Int) (cping : Nat)
    (acc : List (address × route_info) × List (address × route_info))
    (ar : address × remote_route) :
    List (address × route_info) × List (address × route_info) :=
  if P.route_max_dist < ar.2.dist + 1 then acc
  else
    let cand : route_info := ⟨2 + ar.2.ping + cping, ar.2.dist + 1, cid⟩
    match mfind acc.1 ar.1 with
    | none =>
      (minsert acc.1 ar.1 cand,
       if ar.1.addr = [] then mmInsert acc.2 ar.1 cand else acc.2)
    | some cur =>
      let pp := cur.ping * (100 + P.hop_penalization * cur.dist) / 100
      if pp < cand.ping then acc
      else if pp = cand.ping ∧ cur.dist < cand.dist then acc
      else
        (minsert acc.1 ar.1 cand,
         if ar.1.addr = [] then mmInsert acc.2 ar.1 cand else acc.2)

/-- The gate loop of `route_update`: local addresses of every ready gate fill
the (fresh) route table; promiscuous ones are also inserted into `promisc`
(which the source never clears). -/
def gate_fill (gates : List (Int × gate)) (promisc0 : List (address × route_info)) :
    List (address × route_info) × List (address × route_info) :=
  gates.foldl (fun acc g =>
    if g.2.fd < 0 then acc
    else g.2.locals.foldl (fun acc2 k =>
      let temp : route_info := ⟨1, 0, -(1 + g.2.id)⟩
      (minsert acc2.1 k temp,
       if k.addr = [] then mmInsert acc2.2 k temp else acc2.2)) acc)
    ([], promisc0)

/-- The connection loop of `route_update`: only Active connections
contribute. -/
def conn_fill (P : Params) (conns : List (Int × connection))
    (acc0 : List (address × route_info) × List (address × route_info)) :
    List (address × route_info) × List (address × route_info) :=
  conns.foldl (fun acc ic =>
    if ic.2.state ≠ cs_active then acc
    else ic.2.remote_routes.foldl (route_step P ic.1 ic.2.ping) acc) acc0

/-- `route_update_multi`: rebuild `multiroute` from every connection's remote
routes, keyed by destination, inner map keyed by `conn.ping + rr.ping + 2`. -/
def route_update_multi (conns : List (Int × connection)) :
    List (address × List (Nat × Int)) :=
  conns.foldl (fun mr ic =>
    ic.2.remote_routes.foldl (fun mr2 ar =>
      minsert mr2 ar.1
        (minsert ((mfind mr2 ar.1).getD []) (ic.2.ping + ar.2.ping + 2) ic.1)) mr) []

/-!  The route reporter (`report_route`). -/

/-- `(r > o) ? r - o : o - r` — the absolute ping difference of the merge
walk. -/
def ping_gap (r o : Nat) : Nat := if o < r then r - o else o - r

/-- The emission test of the merge walk for an address present in both
tables. -/
def report_emit (d : Nat) (rv ov : route_info) : Bool :=
  decide (d < ping_gap rv.ping ov.ping) || decide (rv.dist ≠ ov.dist)

/-- The merge walk of `report_route` over the sorted tables `route` and
`reported_route`, producing the `report` list (a withdrawn entry is reported
as `route_info (0, 0, 0)`). -/
def report_walk (d : Nat) : List (address × route_info) → List (address × route_info) →
    List (address × route_info)
  | [], old => old.map (fun e => (e.1, ⟨0, 0, 0⟩))
  | e :: rt, [] => e :: rt
  | (rk, rv) :: rt, (ok, ov) :: ot =>
    if rk = ok then
      (if report_emit d rv ov then [(rk, rv)] else []) ++ report_walk d rt ot
    else if rk < ok then (rk, rv) :: report_walk d rt ((ok, ov) :: ot)
    else (ok, ⟨0, 0, 0⟩) :: report_walk d ((rk, rv) :: rt) ot
termination_by r o => r.length + o.length

/-- Applying the emitted entries into `reported_route`: a nonzero ping is
stored, a zero ping erases. -/
def report_apply (reported : List (address × route_info))
    (rep : List (address × route_info)) : List (address × route_info) :=
  rep.foldl (fun acc e => if e.2.ping ≠ 0 then minsert acc e.1 e.2 else merase acc e.1) reported

/-- `report_route`: compute the diff of `route` against `reported_route`;
if it is nonempty, apply it into `reported_route` and broadcast it (the
broadcast is modelled as the returned entry list; its byte serialization is
not modelled). -/
def report_route (d : Nat) (route reported : List (address × route_info)) :
    List (address × route_info) × Option (List (address × route_info)) :=
  let rep := report_walk d route reported
  if rep = [] then (reported, none)
  else (report_apply reported rep, some rep)

/-- `route_update`: rebuild the route table from gates and Active connections
when `route_dirty` is set, rebuild `multiroute` when multipath is on, and call
`report_route`.  The second component is the broadcast route diff, `none` when
nothing was reported. -/
def route_update (P : Params) (conns : List (Int × connection))
    (gates : List (Int × gate)) (st : RState) :
    RState × Option (List (address × route_info)) :=
  if st.route_dirty = 0 then (st, none)
  else
    let acc1 := gate_fill gates st.promisc
    let acc2 := conn_fill P conns acc1
    let mr := if P.do_multiroute then route_update_multi conns else st.multiroute
    let rr := report_route P.ping_diff acc2.1 st.reported_route
    ({ st with route_dirty := 0, route := acc2.1, promisc := acc2.2,
               multiroute := mr, reported_route := rr.1 }, rr.2)
/-!  Multipath scatter (`multiroute_scatter`) and the packet forwarder
(`route_packet`).  Each `rand()` call consumes the head of the tape. -/

/-- The `while` loop of `multiroute_scatter` on the latency-sorted cost list
of one destination.  Result `some (some x, tp)` is `return true` with winner
`x`, `some (none, tp)` is `return false`, and `none` is undefined behaviour
of the source (`rand() % 0`) or its non-termination (a group of zero size on
a zero cost never advances the iterator); the fuel is sufficient for every
terminating run since every executed group is nonempty. -/
def scatter_loop (ratio : Nat) (frm : Int) :
    Nat → List (Nat × Int) → List Nat → Option (Option Int × List Nat)
  | _, [], tp => some (none, tp)
  | 0, _ :: _, _ => none
  | fuel + 1, (c, x) :: rest, tp =>
    let l := (c, x) :: rest
    let grp := l.takeWhile (fun e => decide (e.1 < ratio * c))
    let rest2 := l.dropWhile (fun e => decide (e.1 < ratio * c))
    let n := grp.length
    let w := tp.headI
    let tp2 := tp.tail
    if rest2 = [] ∧ n = 0 then none
    else
      let m := if rest2 = [] then n else n + 1
      let r := w % m
      if r = n then scatter_loop ratio frm fuel rest2 tp2
      else if (grp.getD r (0, 0)).2 = frm then scatter_loop ratio frm fuel rest2 tp2
      else some (some (grp.getD r (0, 0)).2, tp2)

/-- `multiroute_scatter`: look the destination up in `multiroute` and run the
group walk. -/
def multiroute_scatter (ratio : Nat) (mr : List (address × List (Nat × Int)))
    (a : address) (frm : Int) (tape : List Nat) : Option (Option Int × List Nat) :=
  match mfind mr a with
  | none => some (none, tape)
  | some l => scatter_loop ratio frm (l.length + 1) l tape

/-- `random_select` on the list of elements of an iterator range: advance a
uniformly chosen number of steps below the length.  On an empty range the
source computes `rand() % 0` (undefined behaviour), modelled as `none`. -/
def random_select {α : Type} (l : List α) (w : Nat) : Option α :=
  l.get? (w % l.length)

/-- An observable forwarding action of `route_packet`: handing the payload to
a local gate (`gate::send_packet`) or writing it to a connection with the
given (already decremented) ttl (`connection::write_packet`). -/
inductive PAction where
  | toGate (gkey : Int)
  | toConn (ckey : Int) (ttl : Nat)
deriving DecidableEq, Repr

/-- Whether an action is a local gate delivery. -/
def PAction.isGate : PAction → Bool
  | .toGate _ => true
  | .toConn _ _ => false

/-- `send_packet_to_id`: negative ids go to gate `-(to+1)` (when it exists),
nonnegative ids are written to connection `to` with `ttl - 1`, but only when
`ttl` is nonzero. -/
def send_packet_to_id (gates : List (Int × gate)) (conns : List (Int × connection))
    (dst : Int) (ttl : Nat) : List PAction :=
  if dst < 0 then
    match mfind gates (-(dst + 1)) with
    | none => []
    | some _ => [.toGate (-(dst + 1))]
  else if ttl ≠ 0 then
    match mfind conns dst with
    | none => []
    | some _ => [.toConn dst (ttl - 1)]
  else []

/-- The non-broadcast half of `route_packet`: build the `sendlist`.
`some (some sl, tp)` is the final sendlist (after `erase (from)`) and the
remaining tape, `some (none, tp)` is the `goto broadcast`, `none` is undefined
behaviour (`random_select` on an empty promisc range, or inside the
scatterer). -/
def unicast_sendlist (P : Params) (st2 : RState) (a p : address) (frm : Int)
    (tape : List Nat) : Option (Option (List Int) × List Nat) :=
  let step1 : Option (List Int × List Nat) :=
    if P.do_multiroute then
      match multiroute_scatter P.multi_ratio st2.multiroute a frm tape with
      | none => none
      | some (none, tp) => some ([], tp)
      | some (some x, tp) => some (insertSet [] x, tp)
    else
      match mfind st2.route a with
      | some ri => some (insertSet [] ri.id, tape)
      | none => some ([], tape)
  match step1 with
  | none => none
  | some (sl1, tp1) =>
    let pr := st2.promisc.filter (fun e => decide (e.1 = p))
    if pr = [] ∧ sl1 = [] then some (none, tp1)
    else
      let step2 : Option (List Int × List Nat) :=
        if P.shared_uplink then
          match random_select pr tp1.headI with
          | none => none
          | some e => some (insertSet sl1 e.2.id, tp1.tail)
        else some (sl1, tp1)
      match step2 with
      | none => none
      | some (sl2, tp2) =>
        let sl3 := pr.foldl (fun acc e =>
          if (!P.shared_uplink) || decide (e.2.id < 0) then insertSet acc e.2.id else acc) sl2
        some (some (sl3.erase frm), tp2)

/-- The gate loop of the broadcast path: deliver to every ready gate other
than the ingress gate whose instances contain the promisc key `p`. -/
def broadcast_gate_actions (gates : List (Int × gate)) (p : address) (frm : Int) :
    List PAction :=
  gates.filterMap (fun g =>
    if g.1 = -(frm + 1) then none
    else if g.2.fd < 0 then none
    else if ¬ (p ∈ g.2.instances) then none
    else some (.toGate g.1))

/-- The broadcast tail of `route_packet` (from the `broadcast:` label on):
gates first; if ttl is exhausted stop; under `shared_uplink` write to one
randomly selected connection of the whole table, otherwise to every Active
connection except the ingress one. -/
def broadcast_part (P : Params) (conns : List (Int × connection))
    (gates : List (Int × gate)) (st2 : RState) (ttl : Nat) (p : address)
    (frm : Int) (tp : List Nat) : Option (RState × List PAction) :=
  let gacts := broadcast_gate_actions gates p frm
  if ttl = 0 then some (st2, gacts)
  else if P.shared_uplink then
    match random_select conns tp.headI with
    | none => none
    | some e => some (st2, gacts ++ [.toConn e.1 (ttl - 1)])
  else
    some (st2, gacts ++ conns.filterMap (fun ic =>
      if ic.1 = frm then none
      else if ic.2.state ≠ cs_active then none
      else some (.toConn ic.1 (ttl - 1))))

/-- `route_packet`: validity checks, duplicate suppression through the
broadcast-ID cache, lazy `route_update`, then the unicast path (destination
lookup or scatter, promisc fan-out, sendlist dispatch) or the broadcast path.
The result is the new routing state and the emitted forwarding actions;
`none` marks a run whose C++ original has undefined behaviour. -/
def route_packet (P : Params) (conns : List (Int × connection))
    (gates : List (Int × gate)) (st : RState)
    (id ttl inst dof ds sof ss s : Nat) (buf : List Nat) (frm : Int)
    (is_broadcast : Bool) (tape : List Nat) : Option (RState × List PAction) :=
  if s < dof + ds then some (st, [])
  else if ds = 0 then some (st, [])
  else if queue_already_sent st.queue_items id then some (st, [])
  else
    let qi := queue_add_id P.qmax st.queue_age st.queue_items id
    let st1 := { st with queue_age := qi.1, queue_items := qi.2 }
    let st2 := (route_update P conns gates st1).1
    let a : address := ⟨inst, (buf.drop dof).take ds⟩
    let p : address := ⟨inst, []⟩
    if is_broadcast then broadcast_part P conns gates st2 ttl p frm tape
    else
      match unicast_sendlist P st2 a p frm tape with
      | none => none
      | some (none, tp) => broadcast_part P conns gates st2 ttl p frm tp
      | some (some sl, _) =>
        some (st2, sl.foldr (fun k acc =>
          (if k < 0 ∨ 0 < ttl then send_packet_to_id gates conns k ttl else []) ++ acc) [])
/-!  Concrete fixtures used by witnesses and counterexamples. -/

/-- A configuration giving `route_max_dist` the value `m` and
`route_broadcast_ttl` the value `t`. -/
def cfg_both (m t : Nat) : config_key → Option Nat := fun k =>
  if k = config_key.route_max_dist then some m
  else if k = config_key.route_broadcast_ttl then some t else none

/-- All boolean configuration flags off. -/
def flags_none : config_flag → Bool := fun _ => false

/-- A promiscuous (empty-bytes) address on instance 7. -/
def promiscAddr : address := ⟨7, []⟩

/-- A ready gate with id 0 listening promiscuously on instance 7. -/
def gate7 : gate := ⟨0, 0, [promiscAddr], []⟩

/-- The empty routing state. -/
def emptyState : RState := ⟨[], [], [], [], 0, [], []⟩

/-- The empty routing state with the dirty flag set. -/
def dirtyState : RState := ⟨[], [], [], [], 1, [], []⟩

/-- Default parameters, everything off. -/
def P_plain : Params := ⟨1024, false, 2, 5000, 64, 0, false⟩

/-- Default parameters with `shared_uplink` on. -/
def P_shared : Params := ⟨1024, false, 2, 5000, 64, 0, true⟩

/-- A connection in a non-Active state (`cs_inactive`). -/
def conn_inactive : connection := ⟨0, 7, []⟩

/-- A unicast destination address. -/
def destAddr : address := ⟨1, [2]⟩

/-- A state knowing a route to `destAddr` via connection 3, with no promiscs,
not dirty. -/
def stateWithRoute : RState := ⟨[(destAddr, ⟨5, 1, 3⟩)], [], [], [], 0, [], []⟩

/-!  Theorems. -/

/-- Claim C1: after `route_init`, `route_max_dist` should equal the value of
the `route_max_dist` key (default 64) independently of `route_broadcast_ttl`.
The source instead overwrites it with the `route_broadcast_ttl` value: with
`route_max_dist = 10` and `route_broadcast_ttl = 20` in the configuration,
the stored maximum distance is 20, not 10. -/
theorem C1_route_max_dist_overwritten :
    (route_init (cfg_both 10 20) flags_none).route_max_dist = 20 ∧
    ¬ (route_init (cfg_both 10 20) flags_none).route_max_dist = 10 := by
  decide

/-- Claim C3: the spec's invariant asks for one `promisc` entry per known
promiscuous listener, but `route_update` never clears `promisc`: after a
second rebuild (dirty flag set in between) the single listener of `gate7`
owns two identical entries. -/
theorem C3_promisc_accumulates :
    (route_update P_plain [] [(0, gate7)]
        (route_set_dirty (route_update P_plain [] [(0, gate7)] dirtyState).1)).1.promisc =
      [(promiscAddr, ⟨1, 0, -1⟩), (promiscAddr, ⟨1, 0, -1⟩)] := by
  decide

/-- Claim C9: a second `route_update` with no intervening `route_set_dirty`
and no other state change returns the state of the first call unchanged
(all four tables included) and broadcasts no route update. -/
theorem C9_route_update_second_call_noop (P : Params) (conns : List (Int × connection))
    (gates : List (Int × gate)) (st : RState) :
    route_update P conns gates (route_update P conns gates st).1 =
      ((route_update P conns gates st).1, none) := by
  unfold route_update
  by_cases h : st.route_dirty = 0 <;> simp [h]
/-- Splitting a `takeWhile`/`dropWhile` at a known group boundary. -/
theorem takeWhile_append_eq {α : Type} (p : α → Bool) (xs ys : List α)
    (hx : ∀ e ∈ xs, p e = true) (hy : ∀ e ∈ ys.head?, p e = false) :
    (xs ++ ys).takeWhile p = xs ∧ (xs ++ ys).dropWhile p = ys := by
  induction xs with
  | nil =>
    cases ys with
    | nil => simp
    | cons y t =>
      have hh := hy y (by simp)
      simp [List.takeWhile_cons, List.dropWhile_cons, hh]
  | cons a t ih =>
    have ha := hx a (by simp)
    have ih2 := ih (fun e he => hx e (by simp [he]))
    simp [List.takeWhile_cons, List.dropWhile_cons, ha, ih2.1, ih2.2]

/-- Exactly one residue below `n + 1` equals `n`. -/
theorem mod_filter_card_one (n : Nat) :
    ((Finset.range (n + 1)).filter (fun v => v % (n + 1) = n)).card = 1 := by
  have h : ((Finset.range (n + 1)).filter (fun v => v % (n + 1) = n)) = {n} := by
    ext v
    simp only [Finset.mem_filter, Finset.mem_range, Finset.mem_singleton]
    constructor
    · rintro ⟨hv, he⟩
      rwa [Nat.mod_eq_of_lt hv] at he
    · rintro rfl
      exact ⟨Nat.lt_succ_self _, Nat.mod_eq_of_lt (Nat.lt_succ_self _)⟩
  rw [h]
  simp

/-- No residue below `n` equals `n`. -/
theorem mod_filter_card_zero (n : Nat) :
    ((Finset.range n).filter (fun v => v % n = n)).card = 0 := by
  have h : ((Finset.range n).filter (fun v => v % n = n)) = ∅ := by
    ext v
    simp only [Finset.mem_filter, Finset.mem_range, Finset.not_mem_empty, iff_false, not_and]
    intro hv he
    rw [Nat.mod_eq_of_lt hv] at he
    omega
  rw [h]
  simp

/-- Claim C5 (counterexample): the claim gives probability `1/n` for the walk
to advance past the final group.  For the single (hence final) latency group
`[(10, 1), (15, 2)]` (ratio 2, so 15 < 2·10 keeps both in one group, `from`
99 not a member), advancing past the group means `multiroute_scatter` returns
`some (none, _)`; the claim demands exactly one of the 2 uniform rand values
to do so, but no value does: the final group always produces a winner because
`r = rand() % n` can never equal `n`. -/
theorem C5_final_group_advance_probability_not_one_over_n :
    ¬ (((Finset.range 2).filter
        (fun w => multiroute_scatter 2 [(destAddr, [(10, 1), (15, 2)])] destAddr 99 [w] =
          some (none, []))).card = 1) := by
  decide

/-- Claim C5 (amended): for a latency group `grp = (c, x) :: g'` of size `n`
followed by the remaining entries `rest` (the takeWhile boundary being exact),
one scatter step behaves as follows.  For a non-final group (`rest ≠ []`) the
walk advances iff the drawn value is `≡ n (mod n+1)` — exactly 1 residue in
`n+1`, i.e. probability `1/(n+1)` for a uniform draw — and otherwise the
winner is `grp[w % (n+1)]`, each member hit by exactly one residue; a winner
equal to `from` continues with the next group.  For the final group
(`rest = []`) the walk NEVER advances (0 of the `n` residues, not the claimed
`1/n`): the winner is `grp[w % n]`, and a winner equal to `from` ends the walk
with failure. -/
theorem C5_scatter_group_step (ratio : Nat) (frm : Int) (fuel c : Nat) (x : Int)
    (g' rest : List (Nat × Int)) (w : Nat) (tp : List Nat)
    (hgrp : ∀ e ∈ (c, x) :: g', e.1 < ratio * c)
    (hrest : ∀ e ∈ rest.head?, ¬ e.1 < ratio * c) :
    (scatter_loop ratio frm (fuel + 1) (((c, x) :: g') ++ rest) (w :: tp) =
      if rest = [] then
        (if (((c, x) :: g').getD (w % ((c, x) :: g').length) (0, 0)).2 = frm
         then some (none, tp)
         else some (some (((c, x) :: g').getD (w % ((c, x) :: g').length) (0, 0)).2, tp))
      else
        (if w % (((c, x) :: g').length + 1) = ((c, x) :: g').length
         then scatter_loop ratio frm fuel rest tp
         else if (((c, x) :: g').getD (w % (((c, x) :: g').length + 1)) (0, 0)).2 = frm
         then scatter_loop ratio frm fuel rest tp
         else some (some (((c, x) :: g').getD (w % (((c, x) :: g').length + 1)) (0, 0)).2, tp))) ∧
    ((Finset.range (((c, x) :: g').length + 1)).filter
        (fun v => v % (((c, x) :: g').length + 1) = ((c, x) :: g').length)).card = 1 ∧
    ((Finset.range ((c, x) :: g').length).filter
        (fun v => v % ((c, x) :: g').length = ((c, x) :: g').length)).card = 0 := by
  have hsplit := takeWhile_append_eq (fun e => decide (e.1 < ratio * c)) ((c, x) :: g') rest
    (fun e he => by simpa using hgrp e he)
    (fun e he => by simpa using hrest e he)
  refine ⟨?_, mod_filter_card_one _, mod_filter_card_zero _⟩
  cases rest with
  | nil =>
    simp only [List.append_nil] at hsplit ⊢
    simp only [scatter_loop, List.cons_append, List.headI, List.tail]
    rw [hsplit.1, hsplit.2]
    simp only [List.length_cons]
    have hmod : w % (g'.length + 1) < g'.length + 1 := Nat.mod_lt _ (by omega)
    have hbase : scatter_loop ratio frm fuel [] tp = some (none, tp) := by
      cases fuel <;> rfl
    simp [Nat.ne_of_lt hmod, hbase]
  | cons r rs =>
    have hT := hsplit.1
    have hD := hsplit.2
    simp only [List.cons_append] at hT hD
    simp only [scatter_loop, List.append_eq, List.cons_append, List.headI, List.tail]
    rw [hT, hD]
    simp

/-- Witness for C5_scatter_group_step: the two-member group `(10,1),(15,2)`
followed by `(25,3)`, drawn value 1, picks the second member as winner. -/
theorem C5_scatter_group_step_witness :
    (∀ e ∈ [((10 : Nat), (1 : Int)), (15, 2)], e.1 < 2 * 10) ∧
    scatter_loop 2 99 3 ([(10, 1), (15, 2)] ++ [(25, 3)]) (1 :: []) = some (some 2, []) := by
  refine ⟨by decide, ?_⟩
  have h := C5_scatter_group_step 2 99 2 10 1 [(15, 2)] [(25, 3)] 1 [] (by decide) (by decide)
  rw [h.1]
  decide
/-- `mfind` on a cons with the searched key. -/
theorem mfind_cons_self {K V : Type} [LinearOrder K] (t : List (K × V)) (k : K) (v : V) :
    mfind ((k, v) :: t) k = some v := by
  simp [mfind, List.find?_cons]

/-- `mfind` skips a head with a different key. -/
theorem mfind_cons_ne {K V : Type} [LinearOrder K] (t : List (K × V)) (e : K × V) (k : K)
    (h : ¬ e.1 = k) : mfind (e :: t) k = mfind t k := by
  simp [mfind, List.find?_cons, h]

/-- `minsert` stores its key. -/
theorem mfind_minsert_self {K V : Type} [LinearOrder K] (m : List (K × V)) (k : K) (v : V) :
    mfind (minsert m k v) k = some v := by
  induction m with
  | nil => simp [minsert, mfind_cons_self]
  | cons e t ih =>
    obtain ⟨ek, ev⟩ := e
    by_cases h1 : k < ek
    · simp [minsert, h1, mfind_cons_self]
    · by_cases h2 : k = ek
      · simp [minsert, h1, h2, mfind_cons_self]
      · have hne : ¬ (ek, ev).1 = k := fun hh => h2 hh.symm
        rw [minsert, if_neg h1, if_neg h2, mfind_cons_ne _ _ _ hne]
        exact ih

/-- `minsert` leaves other keys alone. -/
theorem mfind_minsert_ne {K V : Type} [LinearOrder K] (m : List (K × V)) (k k' : K) (v : V)
    (h : ¬ k = k') : mfind (minsert m k v) k' = mfind m k' := by
  have hkv : ¬ ((k, v) : K × V).1 = k' := h
  induction m with
  | nil => rw [minsert, mfind_cons_ne _ _ _ hkv]
  | cons e t ih =>
    obtain ⟨ek, ev⟩ := e
    by_cases h1 : k < ek
    · rw [minsert, if_pos h1, mfind_cons_ne _ _ _ hkv]
    · by_cases h2 : k = ek
      · have hek : ¬ ((ek, ev) : K × V).1 = k' := by
          show ¬ ek = k'
          rw [← h2]
          exact h
        rw [minsert, if_neg h1, if_pos h2, mfind_cons_ne _ _ _ hkv,
            mfind_cons_ne _ _ _ hek]
      · by_cases h3 : ek = k'
        · subst h3
          rw [minsert, if_neg h1, if_neg h2, mfind_cons_self, mfind_cons_self]
        · have hek : ¬ ((ek, ev) : K × V).1 = k' := h3
          rw [minsert, if_neg h1, if_neg h2, mfind_cons_ne _ _ _ hek,
              mfind_cons_ne _ _ _ hek]
          exact ih

/-- `merase` drops a matching head. -/
theorem merase_cons_pos {K V : Type} [LinearOrder K] (t : List (K × V)) (e : K × V) (k : K)
    (h : e.1 = k) : merase (e :: t) k = merase t k := by
  simp [merase, List.filter_cons, h]

/-- `merase` keeps a non-matching head. -/
theorem merase_cons_neg {K V : Type} [LinearOrder K] (t : List (K × V)) (e : K × V) (k : K)
    (h : ¬ e.1 = k) : merase (e :: t) k = e :: merase t k := by
  simp [merase, List.filter_cons, h]

/-- `merase` removes its key. -/
theorem mfind_merase_self {K V : Type} [LinearOrder K] (m : List (K × V)) (k : K) :
    mfind (merase m k) k = none := by
  induction m with
  | nil => simp [merase, mfind]
  | cons e t ih =>
    by_cases h : e.1 = k
    · rw [merase_cons_pos _ _ _ h]
      exact ih
    · rw [merase_cons_neg _ _ _ h, mfind_cons_ne _ _ _ h]
      exact ih

/-- `merase` leaves other keys alone. -/
theorem mfind_merase_ne {K V : Type} [LinearOrder K] (m : List (K × V)) (k k' : K)
    (h : ¬ k = k') : mfind (merase m k) k' = mfind m k' := by
  induction m with
  | nil => simp [merase]
  | cons e t ih =>
    by_cases h1 : e.1 = k
    · have h2 : ¬ e.1 = k' := by rw [h1]; exact h
      rw [merase_cons_pos _ _ _ h1, mfind_cons_ne _ _ _ h2]
      exact ih
    · by_cases h2 : e.1 = k'
      · rw [merase_cons_neg _ _ _ h1]
        subst h2
        simp [mfind, List.find?_cons]
      · rw [merase_cons_neg _ _ _ h1, mfind_cons_ne _ _ _ h2, mfind_cons_ne _ _ _ h2]
        exact ih

/-- Claim C6: one step of the connection loop of `route_update`.  At the
candidate's address: with `d + 1 ≤ route_max_dist` the candidate
`{ping = 2 + p + c.ping, dist = d + 1, id = c.id}` is installed when no entry
exists, and replaces an existing entry `cur` exactly when
`effective > candidate.ping` or `effective = candidate.ping` and
`cur.dist ≥ candidate.dist`, where
`effective = cur.ping * (100 + hop_penalization * cur.dist) / 100`; with
`d + 1 > route_max_dist` nothing is installed.  Other addresses are left
untouched. -/
theorem C6_route_step_install_iff (P : Params) (cid : Int) (cping : Nat)
    (acc : List (address × route_info) × List (address × route_info))
    (a : address) (rr : remote_route) :
    (mfind (route_step P cid cping acc (a, rr)).1 a =
      if P.route_max_dist < rr.dist + 1 then mfind acc.1 a
      else
        match mfind acc.1 a with
        | none => some ⟨2 + rr.ping + cping, rr.dist + 1, cid⟩
        | some cur =>
          if 2 + rr.ping + cping < cur.ping * (100 + P.hop_penalization * cur.dist) / 100 ∨
             (cur.ping * (100 + P.hop_penalization * cur.dist) / 100 = 2 + rr.ping + cping ∧
              rr.dist + 1 ≤ cur.dist)
          then some ⟨2 + rr.ping + cping, rr.dist + 1, cid⟩
          else some cur) ∧
    (∀ b : address, ¬ b = a → mfind (route_step P cid cping acc (a, rr)).1 b = mfind acc.1 b) := by
  constructor
  · unfold route_step
    by_cases hd : P.route_max_dist < rr.dist + 1
    · simp [hd]
    · simp only [if_neg hd]
      cases hfind : mfind acc.1 a with
      | none => simp [hfind, mfind_minsert_self]
      | some cur =>
        by_cases h1 : cur.ping * (100 + P.hop_penalization * cur.dist) / 100 < 2 + rr.ping + cping
        · have h2 : ¬ (2 + rr.ping + cping < cur.ping * (100 + P.hop_penalization * cur.dist) / 100 ∨
              (cur.ping * (100 + P.hop_penalization * cur.dist) / 100 = 2 + rr.ping + cping ∧
               rr.dist + 1 ≤ cur.dist)) := by omega
          simp [hfind, h1, h2]
        · by_cases h3 : cur.ping * (100 + P.hop_penalization * cur.dist) / 100 = 2 + rr.ping + cping ∧
              cur.dist < rr.dist + 1
          · have h4 : ¬ (2 + rr.ping + cping < cur.ping * (100 + P.hop_penalization * cur.dist) / 100 ∨
                (cur.ping * (100 + P.hop_penalization * cur.dist) / 100 = 2 + rr.ping + cping ∧
                 rr.dist + 1 ≤ cur.dist)) := by omega
            have h6 : ¬ rr.dist + 1 ≤ cur.dist := by omega
            simp [hfind, h1, h3, h4, h6]
          · have h5 : 2 + rr.ping + cping < cur.ping * (100 + P.hop_penalization * cur.dist) / 100 ∨
                (cur.ping * (100 + P.hop_penalization * cur.dist) / 100 = 2 + rr.ping + cping ∧
                 rr.dist + 1 ≤ cur.dist) := by omega
            simp [hfind, h1, h3, h5, mfind_minsert_self]
  · intro b hb
    unfold route_step
    by_cases hd : P.route_max_dist < rr.dist + 1
    · simp [hd]
    · simp only [if_neg hd]
      cases hfind : mfind acc.1 a with
      | none => simp [hfind, mfind_minsert_ne _ _ _ _ (fun hh => hb hh.symm)]
      | some cur =>
        by_cases h1 : cur.ping * (100 + P.hop_penalization * cur.dist) / 100 < 2 + rr.ping + cping
        · simp [hfind, h1]
        · by_cases h3 : cur.ping * (100 + P.hop_penalization * cur.dist) / 100 = 2 + rr.ping + cping ∧
              cur.dist < rr.dist + 1
          · simp [hfind, h1, h3]
          · simp [hfind, h1, h3, mfind_minsert_ne _ _ _ _ (fun hh => hb hh.symm)]

/-- Witness for C6_route_step_install_iff: a remote route for `destAddr` does
not disturb the entry at the unrelated `promiscAddr`. -/
theorem C6_route_step_install_iff_witness :
    ¬ (promiscAddr = destAddr) ∧
    mfind (route_step P_plain 4 3 ([], []) (destAddr, ⟨10, 2⟩)).1 promiscAddr =
      mfind ([] : List (address × route_info)) promiscAddr :=
  ⟨by decide,
   (C6_route_step_install_iff P_plain 4 3 ([], []) destAddr ⟨10, 2⟩).2 promiscAddr (by decide)⟩
/-- `queue_add_id` always records the id it was given. -/
theorem queue_add_id_mem (qmax : Nat) (age : List Nat) (items : List (Nat × Int)) (id : Nat) :
    queue_already_sent (queue_add_id qmax age items id).2 id = true := by
  unfold queue_add_id queue_already_sent
  cases h : mfind (queue_evict qmax age items).2 id <;> simp [h, mfind_minsert_self]

/-- `route_update` does not touch the broadcast-ID cache. -/
theorem route_update_queue_items (P : Params) (conns : List (Int × connection))
    (gates : List (Int × gate)) (st : RState) :
    (route_update P conns gates st).1.queue_items = st.queue_items := by
  unfold route_update
  by_cases h : st.route_dirty = 0 <;> simp [h]

/-- The broadcast tail returns the routing state it was given. -/
theorem broadcast_part_state (P : Params) (conns : List (Int × connection))
    (gates : List (Int × gate)) (st2 : RState) (ttl : Nat) (p : address) (frm : Int)
    (tp : List Nat) (r : RState × List PAction)
    (h : broadcast_part P conns gates st2 ttl p frm tp = some r) : r.1 = st2 := by
  unfold broadcast_part at h
  split at h
  · obtain rfl := Option.some.inj h
    rfl
  · split at h
    · split at h
      · cases h
      · obtain rfl := Option.some.inj h
        rfl
    · obtain rfl := Option.some.inj h
      rfl

/-- Claim C7: (1) after a valid `route_packet` call (sizes consistent,
nonzero destination) that returned, its id is in the broadcast-ID cache of
the resulting state; (2) any `route_packet` call finding its id in the cache
returns the state unchanged and forwards to no gate and no connection.
Together: a broadcast id observed twice is forwarded exactly once, as long as
the id is not evicted in between. -/
theorem C7_duplicate_forwarded_once (P : Params) (conns : List (Int × connection))
    (gates : List (Int × gate)) (id : Nat) :
    (∀ (st : RState) (ttl inst dof ds sof ss s : Nat) (buf : List Nat) (frm : Int)
       (isb : Bool) (tape : List Nat) (st' : RState) (acts : List PAction),
       dof + ds ≤ s → ¬ ds = 0 →
       route_packet P conns gates st id ttl inst dof ds sof ss s buf frm isb tape =
         some (st', acts) →
       queue_already_sent st'.queue_items id = true) ∧
    (∀ (st : RState) (ttl inst dof ds sof ss s : Nat) (buf : List Nat) (frm : Int)
       (isb : Bool) (tape : List Nat),
       queue_already_sent st.queue_items id = true →
       route_packet P conns gates st id ttl inst dof ds sof ss s buf frm isb tape =
         some (st, [])) := by
  constructor
  · intro st ttl inst dof ds sof ss s buf frm isb tape st' acts h1 h2 hrun
    unfold route_packet at hrun
    rw [if_neg (by omega), if_neg h2] at hrun
    by_cases hal : queue_already_sent st.queue_items id
    · rw [if_pos hal] at hrun
      simp only [Option.some.injEq, Prod.mk.injEq] at hrun
      obtain ⟨rfl, rfl⟩ := hrun
      exact hal
    · rw [if_neg hal] at hrun
      dsimp only at hrun
      have hq : ∀ st2 : RState,
          st2.queue_items = (queue_add_id P.qmax st.queue_age st.queue_items id).2 →
          queue_already_sent st2.queue_items id = true := by
        intro st2 hh
        rw [hh]
        exact queue_add_id_mem _ _ _ _
      split at hrun
      · have := broadcast_part_state _ _ _ _ _ _ _ _ _ hrun
        have h3 : st'.queue_items = (queue_add_id P.qmax st.queue_age st.queue_items id).2 := by
          have h4 := congrArg RState.queue_items this
          rw [route_update_queue_items] at h4
          exact h4
        exact hq _ h3
      · split at hrun
        · cases hrun
        · have := broadcast_part_state _ _ _ _ _ _ _ _ _ hrun
          have h3 : st'.queue_items = (queue_add_id P.qmax st.queue_age st.queue_items id).2 := by
            have h4 := congrArg RState.queue_items this
            rw [route_update_queue_items] at h4
            exact h4
          exact hq _ h3
        · simp only [Option.some.injEq, Prod.mk.injEq] at hrun
          obtain ⟨h5, -⟩ := hrun
          subst h5
          exact hq _ (by rw [route_update_queue_items])
  · intro st ttl inst dof ds sof ss s buf frm isb tape hal
    unfold route_packet
    by_cases hv1 : s < dof + ds
    · rw [if_pos hv1]
    · rw [if_neg hv1]
      by_cases hv2 : ds = 0
      · rw [if_pos hv2]
      · rw [if_neg hv2, if_pos hal]

/-- Witness for C7_duplicate_forwarded_once: a state already holding id 77
drops the duplicate without forwarding. -/
theorem C7_duplicate_forwarded_once_witness :
    queue_already_sent [((77 : Nat), (1 : Int))] 77 = true ∧
    route_packet P_plain [] [] ⟨[], [], [], [], 0, [(77, 1)], [77]⟩ 77 5 1 0 1 0 0 1 [2] 9 false [] =
      some (⟨[], [], [], [], 0, [(77, 1)], [77]⟩, []) :=
  ⟨by decide,
   (C7_duplicate_forwarded_once P_plain [] [] 77).2 _ 5 1 0 1 0 0 1 [2] 9 false [] (by decide)⟩
/-- Claim C4 (counterexample): with `shared_uplink` and `ttl = 1`, a
connection table holding only the non-Active `conn_inactive` (id 5) still gets
the broadcast forwarded to connection 5 — the source selects among ALL
connections, not only Active ones, so a non-Active connection is selected. -/
theorem C4_counterexample :
    (route_packet P_shared [(5, conn_inactive)] [] emptyState 77 1 1 0 1 0 0 1 [2] 9 true [0] =
      some (⟨[], [], [], [], 0, [(77, 1)], [77]⟩, [.toConn 5 0])) ∧
    ¬ conn_inactive.state = cs_active := by
  decide

/-- `random_select` on a nonempty range picks the element at the drawn index. -/
theorem random_select_nonempty {α : Type} (l : List α) (d : α) (w : Nat) (h : ¬ l = []) :
    random_select l w = some (l.getD (w % l.length) d) := by
  have hlt : w % l.length < l.length := Nat.mod_lt _ (List.length_pos.mpr h)
  unfold random_select
  rw [List.get?_eq_get hlt, List.getD, List.get?_eq_get hlt]
  rfl

/-- In a strictly key-sorted association list, positions are determined by entries. -/
theorem sortedmap_get_inj {K V : Type} [LinearOrder K] (m : List (K × V)) (hs : SortedMap m)
    (i j : Fin m.length) (h : m.get i = m.get j) : i = j := by
  have hnd : (m.map Prod.fst).Nodup := by
    have hne : m.Pairwise (fun e f => e.1 ≠ f.1) :=
      hs.imp (fun hlt => ne_of_lt hlt)
    exact List.Pairwise.map _ (fun a b hab => hab) hne
  have h2 : (m.map Prod.fst).get (i.cast (List.length_map m Prod.fst).symm) =
      (m.map Prod.fst).get (j.cast (List.length_map m Prod.fst).symm) := by
    simp only [List.get_eq_getElem, Fin.coe_cast, List.getElem_map]
    rw [show m[(i : Nat)] = m.get i from rfl, show m[(j : Nat)] = m.get j from rfl, h]
  have h3 := (List.Nodup.get_inj_iff hnd).mp h2
  have hv : i.val = j.val := by
    have := congrArg Fin.val h3
    simpa using this
  exact Fin.ext hv

/-- Claim C4 (amended): on the broadcast path with `shared_uplink` and
`ttl > 0`, exactly one connection is selected uniformly at random among ALL
connections of the table — with no regard to their state and with the ingress
connection `from` not excluded — and the packet is forwarded to it with
`ttl - 1` after the gate deliveries.  Uniformity: each entry of the table is
selected by exactly one of the `length` equiprobable draw residues. -/
theorem C4_shared_broadcast_uniform_over_all_connections
    (P : Params) (conns : List (Int × connection)) (gates : List (Int × gate))
    (st : RState) (id ttl inst dof ds sof ss s : Nat) (buf : List Nat) (frm : Int)
    (w : Nat) (tp : List Nat)
    (hsh : P.shared_uplink = true) (httl : 0 < ttl) (hne : ¬ conns = [])
    (hv1 : dof + ds ≤ s) (hv2 : ¬ ds = 0)
    (hq : queue_already_sent st.queue_items id = false) :
    (route_packet P conns gates st id ttl inst dof ds sof ss s buf frm true (w :: tp) =
      some ((route_update P conns gates
               { st with
                 queue_age := (queue_add_id P.qmax st.queue_age st.queue_items id).1,
                 queue_items := (queue_add_id P.qmax st.queue_age st.queue_items id).2 }).1,
            broadcast_gate_actions gates ⟨inst, []⟩ frm ++
              [.toConn (conns.getD (w % conns.length) (0, ⟨0, 0, []⟩)).1 (ttl - 1)])) ∧
    (SortedMap conns → ∀ k : Fin conns.length,
      ((Finset.range conns.length).filter
        (fun v => random_select conns v = some (conns.get k))).card = 1) := by
  constructor
  · unfold route_packet
    rw [if_neg (by omega), if_neg hv2, if_neg (by simp [hq])]
    dsimp only
    rw [if_pos rfl]
    unfold broadcast_part
    rw [if_neg (by omega)]
    rw [hsh]
    rw [if_pos rfl]
    have hhead : (w :: tp).headI = w := rfl
    rw [hhead, random_select_nonempty conns (0, ⟨0, 0, []⟩) w hne]
  · intro hs k
    have hn : 0 < conns.length := List.length_pos.mpr hne
    have hiff : ∀ v, v < conns.length →
        (random_select conns v = some (conns.get k) ↔ v = k.val) := by
      intro v hv
      rw [random_select_nonempty conns (0, ⟨0, 0, []⟩) v hne]
      have hmod : v % conns.length = v := Nat.mod_eq_of_lt hv
      have hgd : conns.getD (v % conns.length) (0, ⟨0, 0, []⟩) = conns.get ⟨v, hv⟩ := by
        rw [hmod, List.getD, List.get?_eq_get hv]
        rfl
      rw [hgd]
      constructor
      · intro he
        have := sortedmap_get_inj conns hs ⟨v, hv⟩ k (Option.some.inj he)
        exact congrArg Fin.val this
      · intro he
        subst he
        rfl
    have hset : ((Finset.range conns.length).filter
        (fun v => random_select conns v = some (conns.get k))) = {k.val} := by
      ext v
      simp only [Finset.mem_filter, Finset.mem_range, Finset.mem_singleton]
      constructor
      · rintro ⟨hv, he⟩
        exact (hiff v hv).mp he
      · rintro rfl
        exact ⟨k.isLt, (hiff k.val k.isLt).mpr rfl⟩
    rw [hset]
    simp

/-- Witness for C4_shared_broadcast_uniform_over_all_connections: the
singleton connection table is selected with probability 1. -/
theorem C4_shared_broadcast_uniform_witness :
    SortedMap [((5 : Int), conn_inactive)] ∧
    ((Finset.range 1).filter
      (fun v => random_select [((5 : Int), conn_inactive)] v =
        some ([((5 : Int), conn_inactive)].get ⟨0, by decide⟩))).card = 1 := by
  refine ⟨by simp [SortedMap], ?_⟩
  exact (C4_shared_broadcast_uniform_over_all_connections P_shared [(5, conn_inactive)] []
      emptyState 77 1 1 0 1 0 0 1 [2] 9 0 [] rfl (by decide) (by decide) (by decide)
      (by decide) (by decide)).2 (by simp [SortedMap]) ⟨0, by decide⟩
/-- A fold preserves any invariant its step preserves. -/
theorem foldl_inv {α β : Type} (Inv : β → Prop) (f : β → α → β) (l : List α)
    (hf : ∀ b x, Inv b → Inv (f b x)) :
    ∀ acc : β, Inv acc → Inv (l.foldl f acc) := by
  induction l with
  | nil => intro acc h; exact h
  | cons x t ih =>
    intro acc h
    exact ih _ (hf _ _ h)

/-- `mmInsert` keeps every existing entry. -/
theorem mem_mmInsert {K V : Type} [LinearOrder K] (m : List (K × V)) (k : K) (v : V)
    (e : K × V) (he : e ∈ m) : e ∈ mmInsert m k v := by
  induction m with
  | nil => cases he
  | cons f t ih =>
    obtain ⟨fk, fv⟩ := f
    by_cases h1 : k < fk
    · simp only [mmInsert, if_pos h1]
      exact List.mem_cons_of_mem _ he
    · simp only [mmInsert, if_neg h1]
      rcases List.mem_cons.mp he with h | h
      · exact h ▸ List.mem_cons_self _ _
      · exact List.mem_cons_of_mem _ (ih h)

/-- An entry of `minsert m k v` is an old entry or `(k, v)`. -/
theorem mem_minsert {K V : Type} [LinearOrder K] (m : List (K × V)) (k : K) (v : V)
    (e : K × V) (he : e ∈ minsert m k v) : e ∈ m ∨ e = (k, v) := by
  induction m with
  | nil =>
    simp only [minsert] at he
    rcases List.mem_singleton.mp he with h
    exact Or.inr h
  | cons f t ih =>
    obtain ⟨fk, fv⟩ := f
    by_cases h1 : k < fk
    · simp only [minsert, if_pos h1] at he
      rcases List.mem_cons.mp he with h | h
      · exact Or.inr h
      · exact Or.inl h
    · by_cases h2 : k = fk
      · simp only [minsert, if_neg h1, if_pos h2] at he
        rcases List.mem_cons.mp he with h | h
        · exact Or.inr h
        · exact Or.inl (List.mem_cons_of_mem _ h)
      · simp only [minsert, if_neg h1, if_neg h2] at he
        rcases List.mem_cons.mp he with h | h
        · exact Or.inl (h ▸ List.mem_cons_self _ _)
        · rcases ih h with h3 | h3
          · exact Or.inl (List.mem_cons_of_mem _ h3)
          · exact Or.inr h3

/-- A found binding is a member. -/
theorem mfind_mem {K V : Type} [LinearOrder K] (m : List (K × V)) (k : K) (v : V)
    (h : mfind m k = some v) : (k, v) ∈ m := by
  induction m with
  | nil => simp [mfind] at h
  | cons e t ih =>
    by_cases h1 : e.1 = k
    · obtain ⟨ek, ev⟩ := e
      simp only at h1
      subst h1
      rw [mfind_cons_self] at h
      obtain rfl := Option.some.inj h
      exact List.mem_cons_self _ _
    · rw [mfind_cons_ne _ _ _ h1] at h
      exact List.mem_cons_of_mem _ (ih h)

/-- The gate loop of `route_update` only inserts into `promisc`. -/
theorem gate_fill_promisc_mono (gates : List (Int × gate))
    (e : address × route_info) (acc : List (address × route_info) × List (address × route_info))
    (he : e ∈ acc.2) : e ∈ (gates.foldl (fun acc g =>
      if g.2.fd < 0 then acc
      else g.2.locals.foldl (fun acc2 k =>
        let temp : route_info := ⟨1, 0, -(1 + g.2.id)⟩
        (minsert acc2.1 k temp,
         if k.addr = [] then mmInsert acc2.2 k temp else acc2.2)) acc) acc).2 := by
  refine foldl_inv (fun b => e ∈ b.2) _ gates ?_ acc he
  intro b g hb
  by_cases hfd : g.2.fd < 0
  · simpa [hfd] using hb
  · simp only [if_neg hfd]
    refine foldl_inv (fun b2 => e ∈ b2.2) _ g.2.locals ?_ b hb
    intro b2 k hb2
    by_cases hk : k.addr = []
    · simpa [hk] using mem_mmInsert _ _ _ _ hb2
    · simpa [hk] using hb2

/-- `route_step` only inserts into `promisc`. -/
theorem route_step_promisc_mono (P : Params) (cid : Int) (cping : Nat)
    (acc : List (address × route_info) × List (address × route_info))
    (ar : address × remote_route) (e : address × route_info) (he : e ∈ acc.2) :
    e ∈ (route_step P cid cping acc ar).2 := by
  unfold route_step
  by_cases hd : P.route_max_dist < ar.2.dist + 1
  · simpa [hd] using he
  · simp only [if_neg hd]
    cases hfind : mfind acc.1 ar.1 with
    | none =>
      by_cases hk : ar.1.addr = []
      · simpa [hk] using mem_mmInsert _ _ _ _ he
      · simpa [hk] using he
    | some cur =>
      by_cases h1 : cur.ping * (100 + P.hop_penalization * cur.dist) / 100 <
          2 + ar.2.ping + cping
      · simpa [h1] using he
      · by_cases h3 : cur.ping * (100 + P.hop_penalization * cur.dist) / 100 =
            2 + ar.2.ping + cping ∧ cur.dist < ar.2.dist + 1
        · simp only [if_neg h1]
          simpa [h3] using he
        · simp only [if_neg h1, if_neg h3]
          by_cases hk : ar.1.addr = []
          · simpa [hk] using mem_mmInsert _ _ _ _ he
          · simpa [hk] using he

/-- The connection loop of `route_update` only inserts into `promisc`. -/
theorem conn_fill_promisc_mono (P : Params) (conns : List (Int × connection))
    (acc : List (address × route_info) × List (address × route_info))
    (e : address × route_info) (he : e ∈ acc.2) : e ∈ (conn_fill P conns acc).2 := by
  unfold conn_fill
  refine foldl_inv (fun b => e ∈ b.2) _ conns ?_ acc he
  intro b ic hb
  by_cases hst : ic.2.state ≠ cs_active
  · simpa [hst] using hb
  · simp only [if_neg hst]
    exact foldl_inv (fun b2 => e ∈ b2.2) _ ic.2.remote_routes
      (fun b2 ar hb2 => route_step_promisc_mono P ic.1 ic.2.ping b2 ar e hb2) b hb

/-- `route_update` never removes a `promisc` entry. -/
theorem route_update_promisc_mono (P : Params) (conns : List (Int × connection))
    (gates : List (Int × gate)) (st : RState) (e : address × route_info)
    (he : e ∈ st.promisc) : e ∈ (route_update P conns gates st).1.promisc := by
  unfold route_update
  by_cases h : st.route_dirty = 0
  · simpa [h] using he
  · simp only [if_neg h]
    exact conn_fill_promisc_mono P conns _ e (gate_fill_promisc_mono gates e _ he)

/-- Every cost key in a rebuilt `multiroute` is positive (it is `2 + pings`). -/
theorem route_update_multi_pos (conns : List (Int × connection)) :
    ∀ e ∈ route_update_multi conns, ∀ q ∈ e.2, 0 < q.1 := by
  unfold route_update_multi
  refine foldl_inv
    (fun mr : List (address × List (Nat × Int)) => ∀ e ∈ mr, ∀ q ∈ e.2, 0 < q.1)
    _ conns ?_ [] (by simp)
  intro mr ic hmr
  refine foldl_inv
    (fun mr2 : List (address × List (Nat × Int)) => ∀ e ∈ mr2, ∀ q ∈ e.2, 0 < q.1)
    _ ic.2.remote_routes ?_ mr hmr
  intro mr2 ar hmr2 e he q hq
  rcases mem_minsert _ _ _ _ he with h | h
  · exact hmr2 e h q hq
  · subst h
    simp only at hq
    rcases mem_minsert _ _ _ _ hq with h2 | h2
    · cases hfd : mfind mr2 ar.1 with
      | none => rw [hfd] at h2; simp at h2
      | some inner =>
        rw [hfd] at h2
        exact hmr2 _ (mfind_mem _ _ _ hfd) q h2
    · subst h2
      simp

/-- With ratio at least 2 and positive costs every scatter walk terminates
without undefined behaviour: each group contains at least its head, so the
list shrinks and no `rand() % 0` is reached. -/
theorem scatter_loop_some (ratio : Nat) (frm : Int) (hr : 2 ≤ ratio) :
    ∀ (fuel : Nat) (l : List (Nat × Int)) (tp : List Nat),
      l.length < fuel → (∀ q ∈ l, 0 < q.1) →
      (scatter_loop ratio frm fuel l tp).isSome := by
  intro fuel
  induction fuel with
  | zero => intro l tp h; omega
  | succ fuel ih =>
    intro l tp hlen hpos
    cases l with
    | nil => simp [scatter_loop]
    | cons e rest =>
      obtain ⟨c, x⟩ := e
      have hc : 0 < c := hpos (c, x) (List.mem_cons_self _ _)
      have hhead : c < ratio * c := by
        calc c = 1 * c := (one_mul c).symm
        _ < ratio * c := (Nat.mul_lt_mul_right hc).mpr (by omega)
      have hgrp : ((c, x) :: rest).takeWhile (fun q => decide (q.1 < ratio * c)) =
          (c, x) :: rest.takeWhile (fun q => decide (q.1 < ratio * c)) := by
        rw [List.takeWhile_cons]
        simp [hhead]
      have hdrop : ((c, x) :: rest).dropWhile (fun q => decide (q.1 < ratio * c)) =
          rest.dropWhile (fun q => decide (q.1 < ratio * c)) := by
        rw [List.dropWhile_cons]
        simp [hhead]
      have happ := List.takeWhile_append_dropWhile
        (p := fun q : Nat × Int => decide (q.1 < ratio * c)) (l := (c, x) :: rest)
      have hlen2 : (rest.dropWhile (fun q => decide (q.1 < ratio * c))).length < fuel := by
        have h1 := congrArg List.length happ
        rw [List.length_append, hgrp, hdrop] at h1
        simp only [List.length_cons] at h1
        have h2 : ((c, x) :: rest).length = rest.length + 1 := rfl
        rw [h2] at hlen
        omega
      have hposd : ∀ q ∈ rest.dropWhile (fun q => decide (q.1 < ratio * c)), 0 < q.1 := by
        intro q hq
        refine hpos q ?_
        rw [← happ, hdrop]
        exact List.mem_append_right _ hq
      have hbase : ∀ (f : Nat) (tp0 : List Nat),
          scatter_loop ratio frm f ([] : List (Nat × Int)) tp0 = some (none, tp0) := by
        intro f tp0
        cases f <;> rfl
      rw [scatter_loop]
      simp only [hgrp, hdrop]
      split
      · next hcond => simp at hcond
      · split
        · next hr2 =>
          rw [hr2]
          split
          · simp [hbase]
          · split
            · simp [hbase]
            · simp
        · next hr2 =>
          split
          · exact ih _ _ hlen2 hposd
          · split
            · exact ih _ _ hlen2 hposd
            · simp

/-- `route_update` preserves positivity of the `multiroute` costs. -/
theorem route_update_multiroute_pos (P : Params) (conns : List (Int × connection))
    (gates : List (Int × gate)) (st : RState)
    (h : ∀ e ∈ st.multiroute, ∀ q ∈ e.2, 0 < q.1) :
    ∀ e ∈ (route_update P conns gates st).1.multiroute, ∀ q ∈ e.2, 0 < q.1 := by
  unfold route_update
  by_cases hd : st.route_dirty = 0
  · simpa [hd] using h
  · simp only [if_neg hd]
    by_cases hm : P.do_multiroute
    · simpa [hm] using route_update_multi_pos conns
    · simpa [hm] using h

/-- `multiroute_scatter` is safe on a positive-cost table. -/
theorem multiroute_scatter_some (ratio : Nat) (mr : List (address × List (Nat × Int)))
    (a : address) (frm : Int) (tape : List Nat) (hr : 2 ≤ ratio)
    (h : ∀ e ∈ mr, ∀ q ∈ e.2, 0 < q.1) :
    (multiroute_scatter ratio mr a frm tape).isSome := by
  unfold multiroute_scatter
  cases hf : mfind mr a with
  | none => simp
  | some l =>
    exact scatter_loop_some ratio frm hr (l.length + 1) l tape (by omega)
      (fun q hq => h _ (mfind_mem _ _ _ hf) q hq)

/-- A member with the looked-up key makes the filtered range nonempty. -/
theorem mem_filter_ne_nil (m : List (address × route_info)) (p : address)
    (e : address × route_info) (he : e ∈ m) (hk : e.1 = p) :
    ¬ m.filter (fun f => decide (f.1 = p)) = [] := by
  intro hnil
  have : e ∈ m.filter (fun f => decide (f.1 = p)) := by
    rw [List.mem_filter]
    exact ⟨he, by simp [hk]⟩
  rw [hnil] at this
  cases this

/-- The unicast half of `route_packet` is safe provided the promisc range of
the packet's instance is nonempty whenever `shared_uplink` is set (and the
scatterer, when enabled, runs on a positive-cost table). -/
theorem unicast_sendlist_some (P : Params) (st2 : RState) (a p : address) (frm : Int)
    (tape : List Nat)
    (hmr : P.do_multiroute = true →
      (2 ≤ P.multi_ratio ∧ ∀ e ∈ st2.multiroute, ∀ q ∈ e.2, 0 < q.1))
    (hpr : P.shared_uplink = true → ∃ e ∈ st2.promisc, e.1 = p) :
    (unicast_sendlist P st2 a p frm tape).isSome := by
  have htail : ∀ (sl1 : List Int) (tp1 : List Nat),
      (let pr := st2.promisc.filter (fun e => decide (e.1 = p))
       if pr = [] ∧ sl1 = [] then
         (some (none, tp1) : Option (Option (List Int) × List Nat))
       else
         let step2 : Option (List Int × List Nat) :=
           if P.shared_uplink then
             match random_select pr tp1.headI with
             | none => none
             | some e => some (insertSet sl1 e.2.id, tp1.tail)
           else some (sl1, tp1)
         match step2 with
         | none => none
         | some (sl2, tp2) =>
           let sl3 := pr.foldl (fun acc e =>
             if (!P.shared_uplink) || decide (e.2.id < 0) then insertSet acc e.2.id else acc) sl2
           some (some (sl3.erase frm), tp2)).isSome := by
    intro sl1 tp1
    dsimp only
    by_cases hempty : st2.promisc.filter (fun e => decide (e.1 = p)) = [] ∧ sl1 = []
    · simp [hempty]
    · rw [if_neg hempty]
      by_cases hsh : P.shared_uplink = true
      · obtain ⟨e, he, hk⟩ := hpr hsh
        have hne := mem_filter_ne_nil st2.promisc p e he hk
        rw [hsh]
        simp only [if_true]
        cases hsel : random_select (st2.promisc.filter (fun e => decide (e.1 = p))) tp1.headI with
        | none =>
          rw [random_select_nonempty _ e _ hne] at hsel
          cases hsel
        | some ee => simp [hsel]
      · have hsh2 : P.shared_uplink = false := by
          cases h : P.shared_uplink
          · rfl
          · exact absurd h hsh
        rw [hsh2]
        simp
  unfold unicast_sendlist
  by_cases hdm : P.do_multiroute
  · rw [if_pos hdm]
    have hsome := multiroute_scatter_some P.multi_ratio st2.multiroute a frm tape
      (hmr hdm).1 (hmr hdm).2
    cases hms : multiroute_scatter P.multi_ratio st2.multiroute a frm tape with
    | none => rw [hms] at hsome; cases hsome
    | some v =>
      obtain ⟨ov, tp1⟩ := v
      cases ov with
      | none => exact htail [] tp1
      | some xx => exact htail (insertSet [] xx) tp1
  · rw [if_neg hdm]
    cases hf : mfind st2.route a with
    | none => exact htail [] tape
    | some ri => exact htail (insertSet [] ri.id) tape

/-- The broadcast tail is safe provided the connection table is nonempty
whenever `shared_uplink` is set. -/
theorem broadcast_part_some (P : Params) (conns : List (Int × connection))
    (gates : List (Int × gate)) (st2 : RState) (ttl : Nat) (p : address) (frm : Int)
    (tp : List Nat) (hc : P.shared_uplink = true → ¬ conns = []) :
    (broadcast_part P conns gates st2 ttl p frm tp).isSome := by
  unfold broadcast_part
  by_cases ht : ttl = 0
  · simp [ht]
  · rw [if_neg ht]
    by_cases hsh : P.shared_uplink = true
    · rw [hsh]
      simp only [if_true]
      cases hsel : random_select conns tp.headI with
      | none =>
        rw [random_select_nonempty conns (0, ⟨0, 0, []⟩) tp.headI (hc hsh)] at hsel
        cases hsel
      | some e => simp [hsel]
    · have hsh2 : P.shared_uplink = false := by
        cases h : P.shared_uplink
        · rfl
        · exact absurd h hsh
      rw [hsh2]
      simp

/-- Claim C10 (amended): every `random_select` invocation inside
`route_packet` operates on a nonempty range — hence no `rand() % 0` and no
end-iterator dereference — PROVIDED that, when `shared_uplink` is enabled,
the promisc table holds an entry for the packet's instance and the connection
map is nonempty (and the multiroute table has positive costs with ratio ≥ 2
when multipath is on).  Without the promisc guard the claim is false: see the
counterexample, where the destination is in the route table but no promisc
entry exists, and the source reaches `random_select` on an empty range. -/
theorem C10_random_select_guarded (P : Params) (conns : List (Int × connection))
    (gates : List (Int × gate)) (st : RState)
    (id ttl inst dof ds sof ss s : Nat) (buf : List Nat) (frm : Int)
    (isb : Bool) (tape : List Nat)
    (hmr : P.do_multiroute = true →
      (2 ≤ P.multi_ratio ∧ ∀ e ∈ st.multiroute, ∀ q ∈ e.2, 0 < q.1))
    (hpr : P.shared_uplink = true → ∃ e ∈ st.promisc, e.1 = (⟨inst, []⟩ : address))
    (hc : P.shared_uplink = true → ¬ conns = []) :
    (route_packet P conns gates st id ttl inst dof ds sof ss s buf frm isb tape).isSome := by
  unfold route_packet
  by_cases hv1 : s < dof + ds
  · simp [hv1]
  · rw [if_neg hv1]
    by_cases hv2 : ds = 0
    · simp [hv2]
    · rw [if_neg hv2]
      by_cases hal : queue_already_sent st.queue_items id
      · simp [hal]
      · rw [if_neg hal]
        dsimp only
        set st1 : RState :=
          { st with
            queue_age := (queue_add_id P.qmax st.queue_age st.queue_items id).1,
            queue_items := (queue_add_id P.qmax st.queue_age st.queue_items id).2 } with hst1
        have hmr2 : P.do_multiroute = true →
            (2 ≤ P.multi_ratio ∧
             ∀ e ∈ (route_update P conns gates st1).1.multiroute, ∀ q ∈ e.2, 0 < q.1) := by
          intro hdm
          exact ⟨(hmr hdm).1, route_update_multiroute_pos P conns gates st1 (hmr hdm).2⟩
        have hpr2 : P.shared_uplink = true →
            ∃ e ∈ (route_update P conns gates st1).1.promisc,
              e.1 = (⟨inst, []⟩ : address) := by
          intro hsh
          obtain ⟨e, he, hk⟩ := hpr hsh
          exact ⟨e, route_update_promisc_mono P conns gates st1 e he, hk⟩
        by_cases hb : isb = true
        · rw [hb]
          simp only [if_true]
          exact broadcast_part_some P conns gates _ ttl _ frm tape hc
        · have hb2 : isb = false := by
            cases isb
            · rfl
            · exact absurd rfl hb
          rw [hb2]
          simp only [Bool.false_eq_true, if_false]
          have hus := unicast_sendlist_some P (route_update P conns gates st1).1
            ⟨inst, (buf.drop dof).take ds⟩ ⟨inst, []⟩ frm tape hmr2 hpr2
          cases hu : unicast_sendlist P (route_update P conns gates st1).1
              ⟨inst, (buf.drop dof).take ds⟩ ⟨inst, []⟩ frm tape with
          | none => rw [hu] at hus; cases hus
          | some v =>
            obtain ⟨ov, tp2⟩ := v
            cases ov with
            | none => exact broadcast_part_some P conns gates _ ttl _ frm tp2 hc
            | some sl => simp

/-- Claim C10 (counterexample): with `shared_uplink`, a known unicast
destination and an empty promisc table, the `goto broadcast` guard is not
taken (the sendlist is nonempty), and `random_select` runs on the EMPTY
promisc range: `rand() % 0`, undefined behaviour (`none` in the model). -/
theorem C10_counterexample :
    route_packet P_shared [] [] stateWithRoute 77 4 1 0 1 0 0 1 [2] 9 false [0] = none := by
  decide

/-- Witness for C10_random_select_guarded: with everything disabled the
forwarder is safe. -/
theorem C10_random_select_guarded_witness :
    (P_plain.do_multiroute = false ∧ P_plain.shared_uplink = false) ∧
    (route_packet P_plain [] [] emptyState 77 4 1 0 1 0 0 1 [2] 9 false [0]).isSome := by
  refine ⟨by decide, ?_⟩
  exact C10_random_select_guarded P_plain [] [] emptyState 77 4 1 0 1 0 0 1 [2] 9 false [0]
    (fun h => by simp [P_plain] at h) (fun h => by simp [P_plain] at h)
    (fun h => by simp [P_plain] at h)
/-- The broadcast gate loop emits only gate deliveries. -/
theorem broadcast_gate_actions_all_gate (gates : List (Int × gate)) (p : address) (frm : Int) :
    ∀ a ∈ broadcast_gate_actions gates p frm, a.isGate = true := by
  intro a ha
  unfold broadcast_gate_actions at ha
  rcases List.mem_filterMap.mp ha with ⟨g, hg, he⟩
  split at he
  · cases he
  · split at he
    · cases he
    · split at he
      · cases he
      · obtain rfl := Option.some.inj he
        rfl

/-- Filtering for gate actions keeps a list of gate actions. -/
theorem filter_gate_of_all (l : List PAction) (h : ∀ a ∈ l, a.isGate = true) :
    l.filter (fun a => a.isGate) = l :=
  List.filter_eq_self.mpr h

/-- For a negative id, `send_packet_to_id` ignores the ttl. -/
theorem send_packet_to_id_neg_ttl (gates : List (Int × gate)) (conns : List (Int × connection))
    (k : Int) (t : Nat) (hk : k < 0) :
    send_packet_to_id gates conns k t = send_packet_to_id gates conns k 0 := by
  simp [send_packet_to_id, hk]

/-- For a negative id, `send_packet_to_id` emits only gate deliveries. -/
theorem send_packet_to_id_neg_gate (gates : List (Int × gate)) (conns : List (Int × connection))
    (k : Int) (t : Nat) (hk : k < 0) :
    ∀ a ∈ send_packet_to_id gates conns k t, a.isGate = true := by
  intro a ha
  unfold send_packet_to_id at ha
  rw [if_pos hk] at ha
  cases hf : mfind gates (-(k + 1)) with
  | none => rw [hf] at ha; cases ha
  | some g =>
    rw [hf] at ha
    rcases List.mem_singleton.mp ha with rfl
    rfl

/-- For a nonnegative id, `send_packet_to_id` emits no gate delivery. -/
theorem send_packet_to_id_nonneg_filter (gates : List (Int × gate))
    (conns : List (Int × connection)) (k : Int) (t : Nat) (hk : ¬ k < 0) :
    (send_packet_to_id gates conns k t).filter (fun a => a.isGate) = [] := by
  unfold send_packet_to_id
  rw [if_neg hk]
  by_cases ht : t ≠ 0
  · rw [if_pos ht]
    cases hf : mfind conns k with
    | none => simp
    | some c => simp [PAction.isGate]
  · rw [if_neg ht]
    simp

/-- For a nonnegative id and zero ttl, `send_packet_to_id` emits nothing. -/
theorem send_packet_to_id_nonneg_ttl0 (gates : List (Int × gate))
    (conns : List (Int × connection)) (k : Int) (hk : ¬ k < 0) :
    send_packet_to_id gates conns k 0 = [] := by
  simp [send_packet_to_id, hk]

/-- The unicast dispatch loop at ttl 0 emits exactly the gate deliveries of
the same dispatch at any ttl. -/
theorem sendlist_foldr_filter (gates : List (Int × gate)) (conns : List (Int × connection))
    (sl : List Int) (t : Nat) :
    ((sl.foldr (fun k acc =>
        (if k < 0 ∨ (0 : Nat) < 0 then send_packet_to_id gates conns k 0 else []) ++ acc) []) =
      (sl.foldr (fun k acc =>
        (if k < 0 ∨ 0 < t then send_packet_to_id gates conns k t else []) ++ acc) []).filter
        (fun a => a.isGate)) ∧
    (∀ a ∈ sl.foldr (fun k acc =>
        (if k < 0 ∨ (0 : Nat) < 0 then send_packet_to_id gates conns k 0 else []) ++ acc) [],
      a.isGate = true) := by
  induction sl with
  | nil => simp
  | cons k rest ih =>
    simp only [List.foldr_cons, List.filter_append]
    constructor
    · rw [← ih.1]
      by_cases hk : k < 0
      · rw [if_pos (Or.inl hk), if_pos (Or.inl hk)]
        rw [send_packet_to_id_neg_ttl gates conns k t hk]
        rw [filter_gate_of_all _ (send_packet_to_id_neg_gate gates conns k 0 hk)]
      · by_cases ht : 0 < t
        · rw [if_neg (by simp [hk]), if_pos (Or.inr ht)]
          rw [send_packet_to_id_nonneg_filter gates conns k t hk]
        · rw [if_neg (by simp [hk]), if_neg (by simp [hk]; omega)]
          simp
    · intro a ha
      rcases List.mem_append.mp ha with h | h
      · by_cases hk : k < 0
        · rw [if_pos (Or.inl hk)] at h
          exact send_packet_to_id_neg_gate gates conns k 0 hk a h
        · rw [if_neg (by simp [hk])] at h
          cases h
      · exact ih.2 a h

/-- The broadcast tail at ttl 0 emits exactly the gate deliveries of the same
tail at any ttl, and the state is unchanged either way. -/
theorem broadcast_part_ttl_filter (P : Params) (conns : List (Int × connection))
    (gates : List (Int × gate)) (st2 : RState) (t : Nat) (p : address) (frm : Int)
    (tp : List Nat) (st1 : RState) (acts1 : List PAction)
    (h1 : broadcast_part P conns gates st2 t p frm tp = some (st1, acts1)) :
    st1 = st2 ∧
    broadcast_part P conns gates st2 0 p frm tp =
      some (st2, acts1.filter (fun a => a.isGate)) := by
  have hst : st1 = st2 := broadcast_part_state _ _ _ _ _ _ _ _ _ h1
  refine ⟨hst, ?_⟩
  have hgate := broadcast_gate_actions_all_gate gates p frm
  unfold broadcast_part at h1 ⊢
  rw [if_pos rfl]
  split at h1
  · have hacts : acts1 = broadcast_gate_actions gates p frm :=
      (congrArg Prod.snd (Option.some.inj h1)).symm
    rw [hacts, filter_gate_of_all _ hgate]
  · split at h1
    · split at h1
      · cases h1
      · have h2 := Option.some.inj h1
        have hacts : acts1 = broadcast_gate_actions gates p frm ++ [.toConn _ (t - 1)] :=
          (congrArg Prod.snd h2).symm
        rw [hacts, List.filter_append, filter_gate_of_all _ hgate]
        simp [PAction.isGate]
    · have h2 := Option.some.inj h1
      have hacts : acts1 = broadcast_gate_actions gates p frm ++ conns.filterMap (fun ic =>
          if ic.1 = frm then none
          else if ic.2.state ≠ cs_active then none
          else some (.toConn ic.1 (t - 1))) := (congrArg Prod.snd h2).symm
      rw [hacts, List.filter_append, filter_gate_of_all _ hgate]
      have hconn : (conns.filterMap (fun ic =>
          if ic.1 = frm then none
          else if ic.2.state ≠ cs_active then none
          else some (PAction.toConn ic.1 (t - 1)))).filter (fun a => a.isGate) = [] := by
        rw [List.filter_eq_nil_iff]
        intro a ha
        rcases List.mem_filterMap.mp ha with ⟨ic, hic, he⟩
        split at he
        · cases he
        · split at he
          · cases he
          · obtain rfl := Option.some.inj he
            simp [PAction.isGate]
      rw [hconn, List.append_nil]

/-- Claim C8: a `route_packet` call with `ttl = 0` invokes no connection's
`write_packet` — its action list filters to gate deliveries only — while the
local gate deliveries are exactly those of the same call with any other ttl
(negative next-hop ids on the unicast path, matching-instance gates on the
broadcast path), and the resulting state does not depend on the ttl. -/
theorem C8_ttl_zero_no_remote (P : Params) (conns : List (Int × connection))
    (gates : List (Int × gate)) (st : RState)
    (id t inst dof ds sof ss s : Nat) (buf : List Nat) (frm : Int)
    (isb : Bool) (tape : List Nat) (st0 st1 : RState) (acts0 acts1 : List PAction)
    (h0 : route_packet P conns gates st id 0 inst dof ds sof ss s buf frm isb tape =
      some (st0, acts0))
    (h1 : route_packet P conns gates st id t inst dof ds sof ss s buf frm isb tape =
      some (st1, acts1)) :
    st0 = st1 ∧ acts0 = acts1.filter (fun a => a.isGate) ∧
    ∀ a ∈ acts0, a.isGate = true := by
  have main : st0 = st1 ∧ acts0 = acts1.filter (fun a => a.isGate) := by
    unfold route_packet at h0 h1
    by_cases hv1 : s < dof + ds
    · rw [if_pos hv1] at h0 h1
      have e0 := Option.some.inj h0
      have e1 := Option.some.inj h1
      have : acts0 = [] := (congrArg Prod.snd e0).symm
      have h1a : acts1 = [] := (congrArg Prod.snd e1).symm
      have hs0 : st0 = st := (congrArg Prod.fst e0).symm
      have hs1 : st1 = st := (congrArg Prod.fst e1).symm
      rw [hs0, hs1, this, h1a]
      simp
    · rw [if_neg hv1] at h0 h1
      by_cases hv2 : ds = 0
      · rw [if_pos hv2] at h0 h1
        have e0 := Option.some.inj h0
        have e1 := Option.some.inj h1
        have h0a : acts0 = [] := (congrArg Prod.snd e0).symm
        have h1a : acts1 = [] := (congrArg Prod.snd e1).symm
        have hs0 : st0 = st := (congrArg Prod.fst e0).symm
        have hs1 : st1 = st := (congrArg Prod.fst e1).symm
        rw [hs0, hs1, h0a, h1a]
        simp
      · rw [if_neg hv2] at h0 h1
        by_cases hal : queue_already_sent st.queue_items id
        · rw [if_pos hal] at h0 h1
          have e0 := Option.some.inj h0
          have e1 := Option.some.inj h1
          have h0a : acts0 = [] := (congrArg Prod.snd e0).symm
          have h1a : acts1 = [] := (congrArg Prod.snd e1).symm
          have hs0 : st0 = st := (congrArg Prod.fst e0).symm
          have hs1 : st1 = st := (congrArg Prod.fst e1).symm
          rw [hs0, hs1, h0a, h1a]
          simp
        · rw [if_neg hal] at h0 h1
          dsimp only at h0 h1
          by_cases hb : isb = true
          · rw [hb] at h0 h1
            simp only [if_true] at h0 h1
            obtain ⟨hst1, hf⟩ := broadcast_part_ttl_filter _ _ _ _ _ _ _ _ _ _ h1
            rw [h0] at hf
            have e := Option.some.inj hf
            have hs0 : st0 = _ := (congrArg Prod.fst e)
            have ha0 : acts0 = acts1.filter (fun a => a.isGate) := congrArg Prod.snd e
            exact ⟨by rw [hs0, hst1], ha0⟩
          · have hb2 : isb = false := by
              cases isb
              · rfl
              · exact absurd rfl hb
            rw [hb2] at h0 h1
            simp only [Bool.false_eq_true, if_false] at h0 h1
            cases hu : unicast_sendlist P
                (route_update P conns gates
                  { st with
                    queue_age := (queue_add_id P.qmax st.queue_age st.queue_items id).1,
                    queue_items := (queue_add_id P.qmax st.queue_age st.queue_items id).2 }).1
                ⟨inst, (buf.drop dof).take ds⟩ ⟨inst, []⟩ frm tape with
            | none => rw [hu] at h0; cases h0
            | some v =>
              rw [hu] at h0 h1
              obtain ⟨ov, tp2⟩ := v
              cases ov with
              | none =>
                dsimp only at h0 h1
                obtain ⟨hst1, hf⟩ := broadcast_part_ttl_filter _ _ _ _ _ _ _ _ _ _ h1
                rw [h0] at hf
                have e := Option.some.inj hf
                have hs0 : st0 = _ := (congrArg Prod.fst e)
                have ha0 : acts0 = acts1.filter (fun a => a.isGate) := congrArg Prod.snd e
                exact ⟨by rw [hs0, hst1], ha0⟩
              | some sl =>
                dsimp only at h0 h1
                have e0 := Option.some.inj h0
                have e1 := Option.some.inj h1
                have hs0 : st0 = _ := (congrArg Prod.fst e0).symm
                have hs1 : st1 = _ := (congrArg Prod.fst e1).symm
                have ha0 : acts0 = _ := (congrArg Prod.snd e0).symm
                have ha1 : acts1 = _ := (congrArg Prod.snd e1).symm
                refine ⟨by rw [hs0, hs1], ?_⟩
                rw [ha0, ha1]
                exact (sendlist_foldr_filter gates conns sl t).1
  refine ⟨main.1, main.2, ?_⟩
  intro a ha
  rw [main.2] at ha
  exact (List.mem_filter.mp ha).2

/-- Witness for C8_ttl_zero_no_remote: concrete run with ttl 0 vs ttl 3 of a
broadcast over one non-Active connection. -/
theorem C8_ttl_zero_no_remote_witness :
    (route_packet P_plain [(5, conn_inactive)] [] emptyState 77 0 1 0 1 0 0 1 [2] 9 true [] =
      some (⟨[], [], [], [], 0, [(77, 1)], [77]⟩, [])) ∧
    ∀ a ∈ ([] : List PAction), a.isGate = true := by
  refine ⟨by decide, ?_⟩
  exact (C8_ttl_zero_no_remote P_plain [(5, conn_inactive)] [] emptyState 77 3 1 0 1 0 0 1
    [2] 9 true [] ⟨[], [], [], [], 0, [(77, 1)], [77]⟩ ⟨[], [], [], [], 0, [(77, 1)], [77]⟩
    [] [] (by decide) (by decide)).2.2
/-- `mfind` on the empty map. -/
theorem mfind_nil {K V : Type} [LinearOrder K] (k : K) :
    mfind ([] : List (K × V)) k = none := rfl

/-- `mfind` misses when no key matches. -/
theorem mfind_eq_none_of_forall {K V : Type} [LinearOrder K] (m : List (K × V)) (k : K)
    (h : ∀ e ∈ m, ¬ e.1 = k) : mfind m k = none := by
  induction m with
  | nil => rfl
  | cons e t ih =>
    rw [mfind_cons_ne _ _ _ (h e (List.mem_cons_self _ _))]
    exact ih (fun f hf => h f (List.mem_cons_of_mem _ hf))

/-- `mfind` misses when all keys are above the searched one. -/
theorem mfind_none_of_lt {K V : Type} [LinearOrder K] (m : List (K × V)) (k : K)
    (h : ∀ e ∈ m, k < e.1) : mfind m k = none :=
  mfind_eq_none_of_forall m k (fun e he => (ne_of_lt (h e he)).symm)

/-- `mfind` through a value-constant map. -/
theorem mfind_map_const {K V W : Type} [LinearOrder K] (m : List (K × V)) (k : K) (z : W) :
    mfind (m.map (fun e => (e.1, z))) k = (mfind m k).map (fun _ => z) := by
  induction m with
  | nil => rfl
  | cons e t ih =>
    by_cases hk : e.1 = k
    · obtain ⟨ek, ev⟩ := e
      simp only at hk
      subst hk
      simp only [List.map_cons]
      rw [mfind_cons_self, mfind_cons_self]
      rfl
    · simp only [List.map_cons]
      rw [mfind_cons_ne _ (e.1, z) _ hk, mfind_cons_ne _ e _ hk]
      exact ih

/-- Lookup in the diff emitted by the merge walk of `report_route`:
an address in both tables appears iff the emission test fires (with the new
value); an address only in the new table appears with its value; an address
only in the old table appears as a withdrawal. -/
theorem report_walk_find (d : Nat) (route reported : List (address × route_info))
    (hr : SortedMap route) (ho : SortedMap reported) :
    ∀ k : address,
      mfind (report_walk d route reported) k =
        (match mfind route k, mfind reported k with
         | some rv, some ov => if report_emit d rv ov then some rv else none
         | some rv, none => some rv
         | none, some _ => some (⟨0, 0, 0⟩ : route_info)
         | none, none => none) := by
  revert hr ho
  induction route, reported using report_walk.induct d with
  | case1 old =>
    intro _ _ k
    have hwalk : report_walk d [] old =
        old.map (fun e => (e.1, (⟨0, 0, 0⟩ : route_info))) := by
      rw [report_walk]
    rw [hwalk, mfind_map_const]
    cases hf : mfind old k <;> simp [mfind_nil, hf]
  | case2 e rt =>
    intro _ _ k
    have hwalk : report_walk d (e :: rt) [] = e :: rt := by
      rw [report_walk]
    rw [hwalk]
    cases hf : mfind (e :: rt) k <;> simp [mfind_nil, hf]
  | case3 rv rt ok ov ot ih =>
    intro hr ho k
    obtain ⟨hrh, hrt⟩ := List.pairwise_cons.mp hr
    obtain ⟨hoh, hot⟩ := List.pairwise_cons.mp ho
    have hwalk : report_walk d ((ok, rv) :: rt) ((ok, ov) :: ot) =
        (if report_emit d rv ov then [(ok, rv)] else []) ++ report_walk d rt ot := by
      rw [report_walk]
      simp
    rw [hwalk]
    by_cases hk : k = ok
    · subst hk
      rw [mfind_cons_self (t := rt) (k := k) (v := rv), mfind_cons_self (t := ot) (k := k) (v := ov)]
      by_cases he : report_emit d rv ov
      · rw [if_pos he]
        rw [show ([(k, rv)] ++ report_walk d rt ot) = (k, rv) :: report_walk d rt ot from rfl]
        rw [mfind_cons_self]
        simp [he]
      · rw [if_neg he]
        rw [List.nil_append]
        have h1 : mfind (report_walk d rt ot) k =
            (match mfind rt k, mfind ot k with
             | some rv, some ov => if report_emit d rv ov then some rv else none
             | some rv, none => some rv
             | none, some _ => some (⟨0, 0, 0⟩ : route_info)
             | none, none => none) := ih hrt hot k
        rw [mfind_none_of_lt rt k (fun f hf => hrh f hf)] at h1
        rw [mfind_none_of_lt ot k (fun f hf => hoh f hf)] at h1
        rw [h1]
        simp [he]
    · have hne : ¬ ((ok, rv) : address × route_info).1 = k := fun h => hk h.symm
      have hne2 : ¬ ((ok, ov) : address × route_info).1 = k := fun h => hk h.symm
      rw [mfind_cons_ne _ _ _ hne, mfind_cons_ne _ _ _ hne2]
      have h2 : mfind ((if report_emit d rv ov then [(ok, rv)] else []) ++
          report_walk d rt ot) k = mfind (report_walk d rt ot) k := by
        by_cases he : report_emit d rv ov
        · rw [if_pos he]
          rw [show ([(ok, rv)] ++ report_walk d rt ot) = (ok, rv) :: report_walk d rt ot from rfl]
          rw [mfind_cons_ne _ _ _ hne]
        · rw [if_neg he, List.nil_append]
      rw [h2]
      exact ih hrt hot k
  | case4 rk rv rt ok ov ot hne hlt ih =>
    intro hr ho k
    obtain ⟨hrh, hrt⟩ := List.pairwise_cons.mp hr
    obtain ⟨hoh, hot⟩ := List.pairwise_cons.mp ho
    have hwalk : report_walk d ((rk, rv) :: rt) ((ok, ov) :: ot) =
        (rk, rv) :: report_walk d rt ((ok, ov) :: ot) := by
      rw [report_walk]
      simp [hne, hlt]
    rw [hwalk]
    by_cases hk : k = rk
    · subst hk
      rw [mfind_cons_self, mfind_cons_self]
      have hro : mfind ((ok, ov) :: ot) k = none := by
        refine mfind_none_of_lt _ _ ?_
        intro f hf
        rcases List.mem_cons.mp hf with h | h
        · rw [h]
          exact hlt
        · exact lt_trans hlt (hoh f h)
      rw [hro]
    · have hnek : ¬ ((rk, rv) : address × route_info).1 = k := fun h => hk h.symm
      rw [mfind_cons_ne _ _ _ hnek, mfind_cons_ne _ _ _ hnek]
      exact ih hrt ho k
  | case5 rk rv rt ok ov ot hne hnlt ih =>
    intro hr ho k
    obtain ⟨hrh, hrt⟩ := List.pairwise_cons.mp hr
    obtain ⟨hoh, hot⟩ := List.pairwise_cons.mp ho
    have hgt : ok < rk := lt_of_le_of_ne (not_lt.mp hnlt) (fun h => hne h.symm)
    have hwalk : report_walk d ((rk, rv) :: rt) ((ok, ov) :: ot) =
        (ok, ⟨0, 0, 0⟩) :: report_walk d ((rk, rv) :: rt) ot := by
      rw [report_walk]
      simp [hne, hnlt]
    rw [hwalk]
    by_cases hk : k = ok
    · subst hk
      rw [mfind_cons_self, mfind_cons_self]
      have hrr : mfind ((rk, rv) :: rt) k = none := by
        refine mfind_none_of_lt _ _ ?_
        intro f hf
        rcases List.mem_cons.mp hf with h | h
        · rw [h]
          exact hgt
        · exact lt_trans hgt (hrh f h)
      rw [hrr]
    · have hnek : ¬ ((ok, ov) : address × route_info).1 = k := fun h => hk h.symm
      have hnek2 : ¬ ((ok, (⟨0, 0, 0⟩ : route_info)) : address × route_info).1 = k :=
        fun h => hk h.symm
      rw [mfind_cons_ne _ _ _ hnek2, mfind_cons_ne _ _ _ hnek]
      exact ih hr hot k

/-- Every key of the emitted diff comes from one of the two tables. -/
theorem report_walk_keys (d : Nat) (route reported : List (address × route_info)) :
    ∀ e ∈ report_walk d route reported,
      e.1 ∈ route.map Prod.fst ∨ e.1 ∈ reported.map Prod.fst := by
  induction route, reported using report_walk.induct d with
  | case1 old =>
    intro e he
    have hwalk : report_walk d [] old =
        old.map (fun e => (e.1, (⟨0, 0, 0⟩ : route_info))) := by
      rw [report_walk]
    rw [hwalk] at he
    rcases List.mem_map.mp he with ⟨f, hf, rfl⟩
    exact Or.inr (List.mem_map.mpr ⟨f, hf, rfl⟩)
  | case2 e rt =>
    intro f hf
    have hwalk : report_walk d (e :: rt) [] = e :: rt := by
      rw [report_walk]
    rw [hwalk] at hf
    exact Or.inl (List.mem_map.mpr ⟨f, hf, rfl⟩)
  | case3 rv rt ok ov ot ih =>
    intro e he
    have hwalk : report_walk d ((ok, rv) :: rt) ((ok, ov) :: ot) =
        (if report_emit d rv ov then [(ok, rv)] else []) ++ report_walk d rt ot := by
      rw [report_walk]
      simp
    rw [hwalk] at he
    rcases List.mem_append.mp he with h | h
    · by_cases hemit : report_emit d rv ov
      · rw [if_pos hemit] at h
        rcases List.mem_singleton.mp h with rfl
        exact Or.inl (by simp)
      · rw [if_neg hemit] at h
        cases h
    · rcases ih e h with h2 | h2
      · rcases List.mem_map.mp h2 with ⟨f, hf, hfe⟩
        exact Or.inl (List.mem_map.mpr ⟨f, List.mem_cons_of_mem _ hf, hfe⟩)
      · rcases List.mem_map.mp h2 with ⟨f, hf, hfe⟩
        exact Or.inr (List.mem_map.mpr ⟨f, List.mem_cons_of_mem _ hf, hfe⟩)
  | case4 rk rv rt ok ov ot hne hlt ih =>
    intro e he
    have hwalk : report_walk d ((rk, rv) :: rt) ((ok, ov) :: ot) =
        (rk, rv) :: report_walk d rt ((ok, ov) :: ot) := by
      rw [report_walk]
      simp [hne, hlt]
    rw [hwalk] at he
    rcases List.mem_cons.mp he with h | h
    · rw [h]
      exact Or.inl (by simp)
    · rcases ih e h with h2 | h2
      · rcases List.mem_map.mp h2 with ⟨f, hf, hfe⟩
        exact Or.inl (List.mem_map.mpr ⟨f, List.mem_cons_of_mem _ hf, hfe⟩)
      · exact Or.inr h2
  | case5 rk rv rt ok ov ot hne hnlt ih =>
    intro e he
    have hwalk : report_walk d ((rk, rv) :: rt) ((ok, ov) :: ot) =
        (ok, ⟨0, 0, 0⟩) :: report_walk d ((rk, rv) :: rt) ot := by
      rw [report_walk]
      simp [hne, hnlt]
    rw [hwalk] at he
    rcases List.mem_cons.mp he with h | h
    · rw [h]
      exact Or.inr (by simp)
    · rcases ih e h with h2 | h2
      · exact Or.inl h2
      · rcases List.mem_map.mp h2 with ⟨f, hf, hfe⟩
        exact Or.inr (List.mem_map.mpr ⟨f, List.mem_cons_of_mem _ hf, hfe⟩)

/-- The emitted diff is strictly sorted when both tables are. -/
theorem report_walk_sorted (d : Nat) (route reported : List (address × route_info))
    (hr : SortedMap route) (ho : SortedMap reported) :
    SortedMap (report_walk d route reported) := by
  revert hr ho
  induction route, reported using report_walk.induct d with
  | case1 old =>
    intro _ ho
    have hwalk : report_walk d [] old =
        old.map (fun e => (e.1, (⟨0, 0, 0⟩ : route_info))) := by
      rw [report_walk]
    rw [hwalk]
    exact List.pairwise_map.mpr ho
  | case2 e rt =>
    intro hr _
    have hwalk : report_walk d (e :: rt) [] = e :: rt := by
      rw [report_walk]
    rw [hwalk]
    exact hr
  | case3 rv rt ok ov ot ih =>
    intro hr ho
    obtain ⟨hrh, hrt⟩ := List.pairwise_cons.mp hr
    obtain ⟨hoh, hot⟩ := List.pairwise_cons.mp ho
    have hwalk : report_walk d ((ok, rv) :: rt) ((ok, ov) :: ot) =
        (if report_emit d rv ov then [(ok, rv)] else []) ++ report_walk d rt ot := by
      rw [report_walk]
      simp
    rw [hwalk]
    have hkey : ∀ f ∈ report_walk d rt ot, ok < f.1 := by
      intro f hf
      rcases report_walk_keys d rt ot f hf with h | h
      · rcases List.mem_map.mp h with ⟨g, hg, hge⟩
        rw [← hge]
        exact hrh g hg
      · rcases List.mem_map.mp h with ⟨g, hg, hge⟩
        rw [← hge]
        exact hoh g hg
    by_cases hemit : report_emit d rv ov
    · rw [if_pos hemit]
      rw [show ([(ok, rv)] ++ report_walk d rt ot) = (ok, rv) :: report_walk d rt ot from rfl]
      exact List.pairwise_cons.mpr ⟨hkey, ih hrt hot⟩
    · rw [if_neg hemit, List.nil_append]
      exact ih hrt hot
  | case4 rk rv rt ok ov ot hne hlt ih =>
    intro hr ho
    obtain ⟨hrh, hrt⟩ := List.pairwise_cons.mp hr
    obtain ⟨hoh, hot⟩ := List.pairwise_cons.mp ho
    have hwalk : report_walk d ((rk, rv) :: rt) ((ok, ov) :: ot) =
        (rk, rv) :: report_walk d rt ((ok, ov) :: ot) := by
      rw [report_walk]
      simp [hne, hlt]
    rw [hwalk]
    refine List.pairwise_cons.mpr ⟨?_, ih hrt ho⟩
    intro f hf
    rcases report_walk_keys d rt ((ok, ov) :: ot) f hf with h | h
    · rcases List.mem_map.mp h with ⟨g, hg, hge⟩
      rw [← hge]
      exact hrh g hg
    · rcases List.mem_map.mp h with ⟨g, hg, hge⟩
      rw [← hge]
      rcases List.mem_cons.mp hg with h2 | h2
      · rw [h2]
        exact hlt
      · exact lt_trans hlt (hoh g h2)
  | case5 rk rv rt ok ov ot hne hnlt ih =>
    intro hr ho
    obtain ⟨hrh, hrt⟩ := List.pairwise_cons.mp hr
    obtain ⟨hoh, hot⟩ := List.pairwise_cons.mp ho
    have hgt : ok < rk := lt_of_le_of_ne (not_lt.mp hnlt) (fun h => hne h.symm)
    have hwalk : report_walk d ((rk, rv) :: rt) ((ok, ov) :: ot) =
        (ok, ⟨0, 0, 0⟩) :: report_walk d ((rk, rv) :: rt) ot := by
      rw [report_walk]
      simp [hne, hnlt]
    rw [hwalk]
    refine List.pairwise_cons.mpr ⟨?_, ih hr hot⟩
    intro f hf
    rcases report_walk_keys d ((rk, rv) :: rt) ot f hf with h | h
    · rcases List.mem_map.mp h with ⟨g, hg, hge⟩
      rw [← hge]
      rcases List.mem_cons.mp hg with h2 | h2
      · rw [h2]
        exact hgt
      · exact lt_trans hgt (hrh g h2)
    · rcases List.mem_map.mp h with ⟨g, hg, hge⟩
      rw [← hge]
      exact hoh g hg

/-- Lookup after applying a key-distinct diff into `reported_route`: a diff
entry with nonzero ping overrides, a zero-ping entry erases, and other keys
fall through to the old table. -/
theorem report_apply_find :
    ∀ (rep reported : List (address × route_info)) (k : address),
      rep.Pairwise (fun e f => e.1 < f.1) →
      mfind (report_apply reported rep) k =
        (match mfind rep k with
         | some v => if v.ping ≠ 0 then some v else none
         | none => mfind reported k) := by
  intro rep
  induction rep with
  | nil =>
    intro reported k _
    rw [show report_apply reported [] = reported from rfl, mfind_nil]
  | cons e rest ih =>
    intro reported k hp
    obtain ⟨hh, ht⟩ := List.pairwise_cons.mp hp
    have happly : report_apply reported (e :: rest) =
        report_apply (if e.2.ping ≠ 0 then minsert reported e.1 e.2
                      else merase reported e.1) rest := by
      rw [report_apply, List.foldl_cons, ← report_apply]
    rw [happly, ih _ k ht]
    by_cases hk : e.1 = k
    · obtain ⟨ek, ev⟩ := e
      simp only at hk hh
      subst hk
      rw [mfind_cons_self]
      rw [mfind_none_of_lt rest _ hh]
      by_cases hping : ev.ping ≠ 0
      · rw [if_pos hping]
        simp only
        rw [mfind_minsert_self]
        simp [hping]
      · rw [if_neg hping]
        simp only
        rw [mfind_merase_self]
        simp [hping]
    · rw [mfind_cons_ne _ _ _ hk]
      cases hfr : mfind rest k with
      | some v => rfl
      | none =>
        simp only
        by_cases hping : e.2.ping ≠ 0
        · rw [if_pos hping, mfind_minsert_ne _ _ _ _ hk]
        · rw [if_neg hping, mfind_merase_ne _ _ _ hk]

/-- Claim C2 (amended): after `report_route`, for every address:  an address
absent from `route` is absent from `reported_route`; an address of `route`
absent from the old `reported_route` gets exactly its `route` entry; and an
address present in both keeps the OLD entry unless the emission test fired
(ping difference above `route_report_ping_diff`, or different dist), in which
case it gets the new entry.  Hence `reported_route` has the same addresses
and the same dist as the nonzero-ping restriction of `route`, but pings may
lag behind by up to the reporting threshold — exact bit-equality fails. -/
theorem C2_report_route_within_threshold (d : Nat) (route reported : List (address × route_info))
    (hr : SortedMap route) (ho : SortedMap reported)
    (hnz : ∀ e ∈ route, ¬ e.2.ping = 0) :
    ∀ k : address,
      mfind (report_route d route reported).1 k =
        (match mfind route k, mfind reported k with
         | some rv, some ov => some (if report_emit d rv ov then rv else ov)
         | some rv, none => some rv
         | none, _ => none) := by
  intro k
  have hwf := report_walk_find d route reported hr ho k
  unfold report_route
  dsimp only
  by_cases hrep : report_walk d route reported = []
  · rw [if_pos hrep]
    rw [hrep, mfind_nil] at hwf
    cases hfr : mfind route k with
    | some rv =>
      cases hfo : mfind reported k with
      | some ov =>
        rw [hfr, hfo] at hwf
        dsimp only at hwf
        by_cases hemit : report_emit d rv ov
        · rw [if_pos hemit] at hwf
          cases hwf
        · simp [hfr, hfo, hemit]
      | none =>
        rw [hfr, hfo] at hwf
        dsimp only at hwf
        cases hwf
    | none =>
      cases hfo : mfind reported k with
      | some ov =>
        rw [hfr, hfo] at hwf
        dsimp only at hwf
        cases hwf
      | none => simp [hfr, hfo]
  · rw [if_neg hrep]
    have hap := report_apply_find (report_walk d route reported) reported k
      (report_walk_sorted d route reported hr ho)
    rw [hwf] at hap
    show mfind (report_apply reported (report_walk d route reported)) k = _
    rw [hap]
    cases hfr : mfind route k with
    | some rv =>
      have hping : ¬ rv.ping = 0 := hnz _ (mfind_mem route k rv hfr)
      cases hfo : mfind reported k with
      | some ov =>
        by_cases hemit : report_emit d rv ov
        · simp [hfr, hfo, hemit, hping]
        · simp [hfr, hfo, hemit]
      | none => simp [hfr, hfo, hping]
    | none =>
      cases hfo : mfind reported k with
      | some ov => simp [hfr, hfo]
      | none => simp [hfr, hfo]

/-- Claim C2 (counterexample): `route` maps `promiscAddr` to ping 3 while the
old `reported_route` holds ping 1; the change (2) is below the threshold
(5000) and the dist is unchanged, so `report_route` keeps ping 1, while
`route` restricted to nonzero pings has ping 3 — the tables are not equal. -/
theorem C2_counterexample :
    mfind (report_route 5000 [(promiscAddr, ⟨3, 0, 0⟩)] [(promiscAddr, ⟨1, 0, 5⟩)]).1
      promiscAddr = some ⟨1, 0, 5⟩ ∧
    ¬ (1 : Nat) = 3 ∧
    mfind ([(promiscAddr, (⟨3, 0, 0⟩ : route_info))].filter (fun e => decide (¬ e.2.ping = 0)))
      promiscAddr = some ⟨3, 0, 0⟩ := by
  have h1 : report_walk 5000 [(promiscAddr, ⟨3, 0, 0⟩)] [(promiscAddr, ⟨1, 0, 5⟩)] = [] := by
    rw [report_walk]
    simp [report_emit, ping_gap, report_walk]
  have h2 : (report_route 5000 [(promiscAddr, ⟨3, 0, 0⟩)] [(promiscAddr, ⟨1, 0, 5⟩)]).1 =
      [(promiscAddr, ⟨1, 0, 5⟩)] := by
    unfold report_route
    rw [h1]
    simp
  rw [h2]
  refine ⟨by decide, by decide, by decide⟩

/-- Witness for C2_report_route_within_threshold at the counterexample's
tables: the old entry survives. -/
theorem C2_report_route_within_threshold_witness :
    (SortedMap [(promiscAddr, (⟨3, 0, 0⟩ : route_info))]) ∧
    mfind (report_route 5000 [(promiscAddr, ⟨3, 0, 0⟩)] [(promiscAddr, ⟨1, 0, 5⟩)]).1
      promiscAddr = some ⟨1, 0, 5⟩ := by
  refine ⟨by simp [SortedMap], ?_⟩
  have h := C2_report_route_within_threshold 5000 [(promiscAddr, ⟨3, 0, 0⟩)]
    [(promiscAddr, ⟨1, 0, 5⟩)] (by simp [SortedMap]) (by simp [SortedMap])
    (by decide) promiscAddr
  rw [h]
  have hfr : mfind [(promiscAddr, (⟨3, 0, 0⟩ : route_info))] promiscAddr =
      some ⟨3, 0, 0⟩ := by decide
  have hfo : mfind [(promiscAddr, (⟨1, 0, 5⟩ : route_info))] promiscAddr =
      some ⟨1, 0, 5⟩ := by decide
  rw [hfr, hfo]
  simp [report_emit, ping_gap]
